import Mathlib

/-!
Verification of the reverse_ssh terminal core and user registry.

This file shallowly embeds the Go source of the repository:
  internal/terminal (VT100 line editor, key decoder, command dispatcher,
  history ring buffer, autocomplete orchestration) and
  internal/server/users (user/session registry).

Conventions of the embedding:
  * Go runes are modelled as `Nat` (code points); Go strings as `List Nat`
    (their rune sequence — all strings appearing in the verified claims are
    ASCII, where the byte/rune distinction is immaterial).
  * Go maps are modelled as association lists with Go's assignment semantics
    (replace if present, append otherwise); `delete` removes the key.
  * Go slice expressions that can panic at runtime are modelled with
    `Option`: `none` is a runtime panic.
  * Go `int` values that can be negative (history indices) are `Int`;
    values that are provably non-negative are `Nat`.
-/

/-- A Go rune (code point). -/
abbrev Rune := Nat

/-- A Go string, as its sequence of runes. -/
abbrev GoStr := List Nat

/-- Convenience: build a `GoStr` from a Lean string literal. -/
def gs (s : String) : GoStr := s.toList.map Char.toNat

/-- Go `unicode.IsSpace`: the Unicode White_Space property, as tested by
`strings.TrimSpace` in `readLine` before a line is added to history. -/
def isSpaceRune (c : Rune) : Bool :=
  c == 9 || c == 10 || c == 11 || c == 12 || c == 13 || c == 32 ||
  c == 0x85 || c == 0xA0 || c == 0x1680 ||
  (0x2000 ≤ c && c ≤ 0x200A) || c == 0x2028 || c == 0x2029 ||
  c == 0x202F || c == 0x205F || c == 0x3000

/-- Go `strings.TrimSpace`: strip White_Space runes from both ends. -/
def trimSpace (s : GoStr) : GoStr :=
  ((s.dropWhile isSpaceRune).reverse.dropWhile isSpaceRune).reverse

/-- Association-list lookup, modelling Go map indexing `m[k]` (comma-ok form). -/
def lookupA {V : Type} (l : List (GoStr × V)) (k : GoStr) : Option V :=
  match l with
  | [] => none
  | (k2, v) :: rest => if k2 = k then some v else lookupA rest k

/-- Association-list insertion, modelling Go map assignment `m[k] = v`. -/
def insertA {V : Type} (l : List (GoStr × V)) (k : GoStr) (v : V) : List (GoStr × V) :=
  match l with
  | [] => [(k, v)]
  | (k2, v2) :: rest => if k2 = k then (k, v) :: rest else (k2, v2) :: insertA rest k v

/-- Association-list removal, modelling Go `delete(m, k)`. -/
def eraseA {V : Type} (l : List (GoStr × V)) (k : GoStr) : List (GoStr × V) :=
  l.filter (fun e => !(e.1 = k : Bool) )

/- ### List helper lemmas (self-contained, used by the ring-buffer proofs) -/

theorem list_getD_set_eq {α : Type} (l : List α) (i : Nat) (a d : α)
    (h : i < l.length) : (l.set i a).getD i d = a := by
  induction l generalizing i with
  | nil => simp at h
  | cons x xs ih =>
    cases i with
    | zero => simp [List.getD]
    | succ n =>
      simp only [List.set, List.getD, List.get?] at *
      exact ih n (by simpa using h)

theorem list_getD_set_ne {α : Type} (l : List α) (i j : Nat) (a d : α)
    (h : i ≠ j) : (l.set i a).getD j d = l.getD j d := by
  induction l generalizing i j with
  | nil => simp [List.set]
  | cons x xs ih =>
    cases i with
    | zero =>
      cases j with
      | zero => exact absurd rfl h
      | succ m => simp [List.set, List.getD]
    | succ n =>
      cases j with
      | zero => simp [List.set, List.getD]
      | succ m =>
        simp only [List.set, List.getD, List.get?]
        exact ih n m (by omega)

theorem list_getD_mem {α : Type} (l : List α) (n : Nat) (d : α)
    (h : n < l.length) : l.getD n d ∈ l := by
  induction l generalizing n with
  | nil => simp at h
  | cons x xs ih =>
    cases n with
    | zero => simp [List.getD]
    | succ m =>
      simp only [List.getD, List.get?]
      exact List.mem_cons_of_mem _ (ih m (by simpa using h))

theorem dropWhile_headD_false {α : Type} (p : α → Bool) (l : List α) (d : α)
    (h : l.dropWhile p ≠ []) : p ((l.dropWhile p).headD d) = false := by
  induction l with
  | nil => simp at h
  | cons x xs ih =>
    by_cases hp : p x
    · rw [List.dropWhile_cons_of_pos hp] at h ⊢
      exact ih h
    · rw [List.dropWhile_cons_of_neg hp]
      simpa using hp

theorem headD_mem {α : Type} (l : List α) (d : α) (h : l ≠ []) : l.headD d ∈ l := by
  cases l with
  | nil => exact absurd rfl h
  | cons x xs => simp [List.headD]

/- ### 4.1 Ring History: `stRingBuffer` (terminal source, lines 1320-1358) -/

/-- The Go `stRingBuffer`: a ring buffer of strings.  The zero value has
`entries = nil` (here `[]`), `max = head = size = 0`. -/
structure stRingBuffer where
  entries : List GoStr
  max : Nat
  head : Nat
  size : Nat
deriving DecidableEq

/-- The zero value of `stRingBuffer`, as embedded in a fresh `Terminal`. -/
def stRingBuffer.init : stRingBuffer := ⟨[], 0, 0, 0⟩

/-- Go `(*stRingBuffer).Add`: place `a` after the most recent entry,
allocating 100 slots on first use, overwriting the oldest when full. -/
def stRingBuffer.Add (s : stRingBuffer) (a : GoStr) : stRingBuffer :=
  -- Go: if s.entries == nil { s.entries = make([]string, 100); s.max = 100 }
  let s := if s.entries.isEmpty then
      { s with entries := List.replicate 100 ([] : GoStr), max := 100 }
    else s
  let head := (s.head + 1) % s.max
  { s with
    head := head
    entries := s.entries.set head a
    size := if s.size < s.max then s.size + 1 else s.size }

/-- Go `(*stRingBuffer).NthPreviousEntry`: the value passed to the nth
previous `Add`; `ok = false` when no such element exists.  The argument is
an `Int` because the caller passes `historyIndex`-derived values of Go type
`int`.  (For `n < 0` the Go code can index out of range and panic; the
claims only concern `n ≥ 0`, where the access is in bounds.) -/
def stRingBuffer.NthPreviousEntry (s : stRingBuffer) (n : Int) : GoStr × Bool :=
  if (s.size : Int) ≤ n then ([], false)
  else
    let index : Int := (s.head : Int) - n
    let index := if index < 0 then index + (s.max : Int) else index
    (s.entries.getD index.toNat [], true)

/-- Abstraction invariant: after the strings `ws` have been `Add`ed in order
to a fresh buffer, the state is either still the zero value (`ws = []`) or a
100-slot ring whose `n`-th most recent entry is `ws.reverse.getD n []`. -/
def rbWF (ws : List GoStr) (s : stRingBuffer) : Prop :=
  (ws = [] ∧ s = stRingBuffer.init) ∨
  (s.max = 100 ∧ s.entries.length = 100 ∧ s.head < 100 ∧
    s.size = min ws.length 100 ∧
    ∀ n : Nat, n < s.size →
      s.entries.getD ((s.head + 100 - n) % 100) [] = ws.reverse.getD n [])

theorem Add_init (w : GoStr) :
    stRingBuffer.init.Add w =
      ⟨(List.replicate 100 ([] : GoStr)).set 1 w, 100, 1, 1⟩ := rfl

theorem Add_of_nonEmpty (s : stRingBuffer) (w : GoStr)
    (h : s.entries.isEmpty = false) :
    s.Add w = { s with
      head := (s.head + 1) % s.max
      entries := s.entries.set ((s.head + 1) % s.max) w
      size := if s.size < s.max then s.size + 1 else s.size } := by
  simp [stRingBuffer.Add, h]

theorem rbWF_Add {ws : List GoStr} {s : stRingBuffer} (w : GoStr)
    (h : rbWF ws s) : rbWF (ws ++ [w]) (s.Add w) := by
  rcases h with ⟨hws, hs⟩ | ⟨hmax, hlen, hhead, hsize, hidx⟩
  · subst hs
    subst hws
    rw [Add_init]
    right
    refine ⟨rfl, by simp, by norm_num, by simp, ?_⟩
    intro n hn
    have hn1 : n < 1 := hn
    have hn0 : n = 0 := by omega
    subst hn0
    have hix : (1 + 100 - 0) % 100 = 1 := by norm_num
    rw [hix, list_getD_set_eq _ _ _ _ (by simp)]
    simp
  · have hne : s.entries.isEmpty = false := by
      cases he : s.entries with
      | nil => rw [he] at hlen; simp at hlen
      | cons a l => simp [he]
    rw [Add_of_nonEmpty s w hne]
    right
    have hmaxpos : 0 < s.max := by omega
    have hh2 : (s.head + 1) % s.max < 100 := by
      rw [hmax]; exact Nat.mod_lt _ (by omega)
    have hsize2 : (if s.size < s.max then s.size + 1 else s.size) =
        min (ws.length + 1) 100 := by
      split <;> omega
    refine ⟨hmax, by simpa using hlen, hh2, ?_, ?_⟩
    · rw [hsize2]
      simp
    · intro n hn
      simp only [hsize2] at hn
      simp only [hmax] at hh2 hn ⊢
      have hrev : (ws ++ [w]).reverse = w :: ws.reverse := by simp
      rcases Nat.eq_zero_or_pos n with hn0 | hnpos
      · subst hn0
        have hidx0 : ((s.head + 1) % 100 + 100 - 0) % 100 = (s.head + 1) % 100 := by
          omega
        rw [hidx0, list_getD_set_eq _ _ _ _ (by rw [hlen]; exact hh2), hrev]
        simp
      · have hn99 : n ≤ 99 := by omega
        have hne2 : ((s.head + 1) % 100 + 100 - n) % 100 ≠ (s.head + 1) % 100 := by
          omega
        rw [list_getD_set_ne _ _ _ _ _ (Ne.symm hne2)]
        have heq : ((s.head + 1) % 100 + 100 - n) % 100 =
            (s.head + 100 - (n - 1)) % 100 := by
          omega
        rw [heq, hidx (n - 1) (by omega), hrev]
        cases n with
        | zero => omega
        | succ m => simp

theorem rbWF_nth {ws : List GoStr} {s : stRingBuffer} (h : rbWF ws s) (n : Nat) :
    s.NthPreviousEntry (n : Int) =
      if n < min ws.length 100 then (ws.reverse.getD n [], true) else ([], false) := by
  rcases h with ⟨hws, hs⟩ | ⟨hmax, hlen, hhead, hsize, hidx⟩
  · subst hs hws
    simp [stRingBuffer.NthPreviousEntry, stRingBuffer.init]
  · by_cases hlt : n < min ws.length 100
    · rw [if_pos hlt]
      have hns : n < s.size := by omega
      rw [stRingBuffer.NthPreviousEntry, if_neg (by exact_mod_cast Nat.not_le.mpr hns)]
      rw [← hidx n hns]
      rcases Nat.lt_or_ge n (s.head + 1) with hcase | hcase
      · have hpos : ¬ ((s.head : Int) - n < 0) := by omega
        simp only [hpos, if_false]
        have ht : ((s.head : Int) - n).toNat = s.head - n := by omega
        have hm : (s.head + 100 - n) % 100 = s.head - n := by omega
        rw [ht, hm]
      · have hneg : ((s.head : Int) - n < 0) := by omega
        simp only [hneg, if_true]
        have ht : ((s.head : Int) - n + s.max).toNat = s.head + 100 - n := by
          rw [hmax]; omega
        have hm : (s.head + 100 - n) % 100 = s.head + 100 - n := by omega
        rw [ht, hm]
    · rw [if_neg hlt]
      have hns : s.size ≤ n := by omega
      rw [stRingBuffer.NthPreviousEntry, if_pos (by exact_mod_cast hns)]

/-- Running a whole sequence of `Add`s against a fresh buffer. -/
def runAdds (ws : List GoStr) : stRingBuffer :=
  ws.foldl stRingBuffer.Add stRingBuffer.init

theorem rbWF_runAdds (ws : List GoStr) : rbWF ws (runAdds ws) := by
  induction ws using List.reverseRecOn with
  | nil => exact Or.inl ⟨rfl, rfl⟩
  | append_singleton l a ih =>
    have : runAdds (l ++ [a]) = (runAdds l).Add a := by
      simp [runAdds]
    rw [this]
    exact rbWF_Add a ih

/-- C4: the history ring buffer is a bounded FIFO of capacity 100: after the
strings `ws` have been added in order, `NthPreviousEntry n` returns the entry
added `n` steps before the latest and succeeds exactly when `n` is below the
current size `min ws.length 100`; no deduplication occurs. -/
theorem C4_history_bounded_fifo (ws : List GoStr) (n : Nat) :
    (runAdds ws).NthPreviousEntry (n : Int) =
      if n < min ws.length 100 then (ws.reverse.getD n [], true) else ([], false) :=
  rbWF_nth (rbWF_runAdds ws) n

/- ### History hygiene (readLine commit point, terminal source lines 1180-1192) -/

/-- The history-commit step of `readLine`: when a completed line is returned
and echo is on, the line is trimmed and added to history only when the
trimmed line is non-empty.  This is the only call site of `history.Add` in
the package. -/
def commitLine (echo : Bool) (h : stRingBuffer) (line : GoStr) : stRingBuffer :=
  if echo then
    let line2 := trimSpace line
    if line2 ≠ [] then h.Add line2 else h
  else h

/-- The lines actually committed to history out of a sequence of completed
`ReadLine` results (each paired with the echo flag in force at the time). -/
def committedOf (evs : List (Bool × GoStr)) : List GoStr :=
  evs.filterMap (fun e => if e.1 ∧ trimSpace e.2 ≠ [] then some (trimSpace e.2) else none)

/-- The history buffer after a sequence of completed `ReadLine`s. -/
def runReadLines (evs : List (Bool × GoStr)) : stRingBuffer :=
  evs.foldl (fun h e => commitLine e.1 h e.2) stRingBuffer.init

theorem foldCommit_eq_runAdds (evs : List (Bool × GoStr)) :
    ∀ ws : List GoStr,
      evs.foldl (fun h e => commitLine e.1 h e.2) (runAdds ws) =
        runAdds (ws ++ committedOf evs) := by
  induction evs with
  | nil => intro ws; simp [committedOf]
  | cons e rest ih =>
    intro ws
    simp only [List.foldl_cons]
    by_cases hc : e.1 ∧ trimSpace e.2 ≠ []
    · have hstep : commitLine e.1 (runAdds ws) e.2 = runAdds (ws ++ [trimSpace e.2]) := by
        simp [commitLine, hc.1, hc.2, runAdds]
      rw [hstep, ih]
      simp [committedOf, hc]
    · have hstep : commitLine e.1 (runAdds ws) e.2 = runAdds ws := by
        cases hb : e.1 with
        | false => simp [commitLine, hb]
        | true =>
          have h2 : trimSpace e.2 = [] := by
            by_contra hne
            exact hc ⟨hb, hne⟩
          simp [commitLine, hb, h2]
      rw [hstep, ih]
      congr 1
      simp [committedOf, hc]

theorem committedOf_good (evs : List (Bool × GoStr)) (v : GoStr)
    (h : v ∈ committedOf evs) : v ≠ [] ∧ ∃ c ∈ v, isSpaceRune c = false := by
  rw [committedOf, List.mem_filterMap] at h
  obtain ⟨e, -, he⟩ := h
  by_cases hc : e.1 ∧ trimSpace e.2 ≠ []
  · rw [if_pos hc] at he
    obtain rfl : trimSpace e.2 = v := by injection he
    refine ⟨hc.2, ?_⟩
    have hy : (e.2.dropWhile isSpaceRune).reverse.dropWhile isSpaceRune ≠ [] := by
      intro hnil
      apply hc.2
      simp [trimSpace, hnil]
    refine ⟨((e.2.dropWhile isSpaceRune).reverse.dropWhile isSpaceRune).headD 0, ?_, ?_⟩
    · rw [trimSpace, List.mem_reverse]
      exact headD_mem _ 0 hy
    · exact dropWhile_headD_false _ _ _ hy
  · rw [if_neg hc] at he
    cases he

/-- C8: after any sequence of completed `ReadLine`s, every entry stored in
the history buffer is non-empty and contains a rune that is not White_Space:
lines that trim to empty are never added. -/
theorem C8_history_hygiene (evs : List (Bool × GoStr)) (n : Nat) (v : GoStr)
    (h : (runReadLines evs).NthPreviousEntry (n : Int) = (v, true)) :
    v ≠ [] ∧ ∃ c ∈ v, isSpaceRune c = false := by
  have hrun : runReadLines evs = runAdds (committedOf evs) := by
    have := foldCommit_eq_runAdds evs []
    simpa [runReadLines, runAdds] using this
  rw [hrun, rbWF_nth (rbWF_runAdds _) n] at h
  by_cases hlt : n < min (committedOf evs).length 100
  · rw [if_pos hlt] at h
    have hv : (committedOf evs).reverse.getD n [] = v := by
      have := congrArg Prod.fst h
      simpa using this
    have hmem : v ∈ committedOf evs := by
      have hm := list_getD_mem (committedOf evs).reverse n []
        (by simp only [List.length_reverse]; omega)
      rw [hv] at hm
      exact List.mem_reverse.mp hm
    exact committedOf_good evs v hmem
  · rw [if_neg hlt] at h
    have : False := by
      have := congrArg Prod.snd h
      simp at this
    exact this.elim

/-- Witness for C8 at a concrete input: committing the line consisting of
two spaces, `hi`, and a trailing space stores exactly `hi`. -/
theorem C8_history_hygiene_witness :
    gs "hi" ≠ [] ∧ ∃ c ∈ gs "hi", isSpaceRune c = false :=
  C8_history_hygiene [(true, gs "  hi ")] 0 (gs "hi") (by decide)

/- ### Assoc-list lemmas for the registry proofs -/

theorem lookupA_insertA {V : Type} (l : List (GoStr × V)) (k : GoStr) (v : V) :
    lookupA (insertA l k v) k = some v := by
  induction l with
  | nil => simp [insertA, lookupA]
  | cons e rest ih =>
    obtain ⟨k2, v2⟩ := e
    by_cases he : k2 = k
    · simp [insertA, he, lookupA]
    · simp only [insertA, if_neg he, lookupA]
      exact ih

theorem lookupA_eraseA {V : Type} (l : List (GoStr × V)) (k : GoStr) :
    lookupA (eraseA l k) k = none := by
  induction l with
  | nil => simp [eraseA, lookupA]
  | cons e rest ih =>
    obtain ⟨k2, v2⟩ := e
    by_cases he : k2 = k
    · simpa [eraseA, List.filter_cons, he] using ih
    · simp only [eraseA, List.filter_cons] at ih ⊢
      have hd : (!decide ((k2, v2).1 = k)) = true := by
        simp [he]
      rw [if_pos hd]
      simp only [lookupA]
      rw [if_neg he]
      exact ih

/- ### 4.6 User & Session Registry (internal/server/users/users.go) -/

/-- The parts of `ssh.ServerConn` the registry consumes: `User()`,
`RemoteAddr().String()` and `Permissions.Extensions["privilege"]`. -/
structure ServerConn where
  user : GoStr
  remoteAddr : GoStr
  privilegeExt : GoStr
deriving DecidableEq

/-- `users.Connection` (the fields the claims touch; the `Pty` attributes and
the `ShellRequests` channel are opaque to the registry operations). -/
structure Connection where
  serverConnection : ServerConn
  ConnectionDetails : GoStr
deriving DecidableEq

/-- `users.User`.  The per-user autocomplete trie is modelled by the list of
strings registered in it. -/
structure User where
  username : GoStr
  userConnections : List (GoStr × Connection)
  clients : List (GoStr × ServerConn)
  autocomplete : List GoStr
  privilege : Option Int
deriving DecidableEq

/-- The package-scope registry state guarded by the readers/writer lock:
`users`, `activeConnections`, and the globals `allClients` / `aliases`
referenced by `GetClient` (declared in a sibling file of the package). -/
structure Registry where
  users : List (GoStr × User)
  activeConnections : List GoStr
  allClients : List (GoStr × ServerConn)
  aliases : List (GoStr × List GoStr)
deriving DecidableEq

/-- Set-insert, modelling `m[k] = true` on a Go `map[string]bool`. -/
def setInsert (l : List GoStr) (k : GoStr) : List GoStr :=
  if k ∈ l then l else l ++ [k]

/-- Set-erase, modelling `delete(m, k)` on a Go `map[string]bool`. -/
def setErase (l : List GoStr) (k : GoStr) : List GoStr :=
  l.filter (fun e => !(e = k : Bool))

/-- Go `strconv.Atoi` (overflow aside): optional sign then decimal digits. -/
def goAtoi (s : GoStr) : Option Int :=
  match s with
  | [] => none
  | c :: rest =>
    let p := if c = 45 then (true, rest) else if c = 43 then (false, rest) else (false, s)
    if p.2 = [] then none
    else if p.2.all (fun d => 48 ≤ d && d ≤ 57) then
      let n : Nat := p.2.foldl (fun acc d => acc * 10 + (d - 48)) 0
      some (if p.1 then -(n : Int) else (n : Int))
    else none

/-- `makeConnectionDetailsString`. -/
def makeConnectionDetailsString (c : ServerConn) : GoStr :=
  c.user ++ gs "@" ++ c.remoteAddr

/-- `(*User).Privilege()`: dereference the privilege pointer, defaulting to 0
(with a log message, elided) when it was never set. -/
def privilegeOf (u : User) : Int := u.privilege.getD 0

/-- The `newUser` literal of `_createOrGetUser`. -/
def freshUser (username : GoStr) : User :=
  { username := username, userConnections := [], clients := [], autocomplete := [],
    privilege := none }

/-- `_createOrGetUser` (and therefore `CreateOrGetUser`, which only wraps it
in the lock).  The Go function mutates the `*User` it holds; because the
`users` map stores the same pointer, every mutation is re-inserted into the
map here.  The result models the `(us, connectionDetails, err)` triple. -/
def createOrGetUser (st : Registry) (username : GoStr) (conn : Option ServerConn) :
    Except GoStr (User × GoStr) × Registry :=
  let p :=
    match lookupA st.users username with
    | some u => (u, st.users)
    | none =>
      let newUser := freshUser username
      (newUser, insertA st.users username newUser)
  let u := p.1
  match conn with
  | none => (.ok (u, []), { st with users := p.2 })
  | some c =>
    let details := makeConnectionDetailsString c
    let newConnection : Connection :=
      { serverConnection := c, ConnectionDetails := details }
    -- priv, err := strconv.Atoi(...); on error only a log line is emitted
    let u1 := match goAtoi c.privilegeExt with
      | none => u
      | some priv => { u with privilege := some priv }
    let users2 := insertA p.2 username u1
    if (lookupA u1.userConnections details).isSome then
      (.error (gs "connection already exists for " ++ details),
        { st with users := users2 })
    else
      let u2 := { u1 with
        userConnections := insertA u1.userConnections details newConnection }
      (.ok (u2, details),
        { st with
          users := insertA users2 username u2
          activeConnections := setInsert st.activeConnections details })

/-- `DisconnectUser`: remove the session entry and the liveness bit, then
remove the user record when the user owns no controllees.  (Closing the SSH
connection is a side effect outside the registry state.) -/
def disconnectUser (st : Registry) (conn : Option ServerConn) : Registry :=
  match conn with
  | none => st
  | some c =>
    let details := makeConnectionDetailsString c
    match lookupA st.users c.user with
    | none => st
    | some u =>
      let u1 := { u with userConnections := eraseA u.userConnections details }
      let st1 := { st with
        users := insertA st.users c.user u1
        activeConnections := setErase st.activeConnections details }
      if u1.clients = [] then { st1 with users := eraseA st1.users c.user }
      else st1

/-- Decimal digits of a natural, modelling `fmt.Sprintf("%d", n)`. -/
def natDigits (n : Nat) : GoStr :=
  if n < 10 then [48 + n] else natDigits (n / 10) ++ [48 + n % 10]
decreasing_by simp_wf; omega

/-- `(*User).GetClient`: direct ID lookup in the global controllee map, else
resolution through the global alias map.  For a non-admin caller the ids not
owned by the caller are deleted from the shared alias set itself (Go maps
are references, so the pruning mutates the global `aliases` entry); the
mutated registry is returned as the second component.  A `.ok none` result
models Go returning a nil connection with a nil error. -/
def getClient (st : Registry) (u : User) (identifier : GoStr) :
    Except GoStr (Option ServerConn) × Registry :=
  match lookupA st.allClients identifier with
  | some m => (.ok (some m), st)
  | none =>
    let searchClients := if privilegeOf u = 5 then st.allClients else u.clients
    match lookupA st.aliases identifier with
    | none => (.error (identifier ++ gs " not found"), st)
    | some matchingUniqueIDs =>
      -- non-admin: ids outside the caller's ownership are deleted from the
      -- shared set (toRemove loop + delete), i.e. the owned ones remain
      let matching2 :=
        if privilegeOf u ≠ 5 then
          matchingUniqueIDs.filter (fun id => (lookupA u.clients id).isSome)
        else matchingUniqueIDs
      let st2 :=
        if privilegeOf u ≠ 5 then
          { st with aliases := insertA st.aliases identifier matching2 }
        else st
      if matching2.length = 1 then
        (.ok (lookupA searchClients (matching2.headD [])), st2)
      else
        let matchingHosts := matching2.foldl (fun acc k =>
          let client := lookupA searchClients k
          acc ++ k ++ gs " (" ++ (client.map ServerConn.user).getD [] ++ gs " " ++
            (client.map ServerConn.remoteAddr).getD [] ++ gs ")" ++ [10]) []
        let matchingHosts :=
          if matchingHosts.length > 0 then matchingHosts.dropLast else matchingHosts
        (.error (natDigits matching2.length ++ gs " connections match alias '" ++
          identifier ++ gs "'" ++ [10] ++ matchingHosts), st2)

theorem mem_setInsert_self (l : List GoStr) (k : GoStr) : k ∈ setInsert l k := by
  rw [setInsert]
  by_cases h : k ∈ l
  · rw [if_pos h]; exact h
  · rw [if_neg h]; simp

/- ### C2: registry presence invariant -/

def emptyRegistry : Registry := ⟨[], [], [], []⟩

def c2Conn1 : ServerConn := ⟨gs "alice", gs "1.1.1.1:1111", gs "0"⟩

def c2Conn2 : ServerConn := ⟨gs "alice", gs "2.2.2.2:2222", gs "0"⟩

def c2StateTwoSessions : Registry :=
  (createOrGetUser
    ((createOrGetUser emptyRegistry (gs "alice") (some c2Conn1)).2)
    (gs "alice") (some c2Conn2)).2

def c2StateAfter : Registry := disconnectUser c2StateTwoSessions (some c2Conn1)

/-- C2 counterexample: after `alice` attaches twice (owning no controllees)
and only the first session is disconnected, the user record is gone from the
username map even though the second operator session is still active (its
connection-details label is still in the global liveness set), refuting the
claimed presence invariant. -/
theorem C2_registry_invariant_counterexample :
    ((lookupA c2StateTwoSessions.users (gs "alice")).map
        (fun u => (u.userConnections.length, u.clients))) = some (2, []) ∧
    lookupA c2StateAfter.users (gs "alice") = none ∧
    gs "alice@2.2.2.2:2222" ∈ c2StateAfter.activeConnections := by
  decide

/-- C2 amended: `DisconnectUser` removes the username from the global user
map exactly when the user record owns no controllees — regardless of how
many other operator sessions are still active. -/
theorem C2_disconnect_removes_iff_no_controllees (st : Registry) (c : ServerConn)
    (u : User) (h : lookupA st.users c.user = some u) :
    (lookupA (disconnectUser st (some c)).users c.user = none ↔ u.clients = []) := by
  simp only [disconnectUser]
  rw [h]
  by_cases hc : u.clients = []
  · simp [hc, lookupA_eraseA]
  · simp [hc, lookupA_insertA]

def c2wConn : ServerConn := ⟨gs "dana", gs "9.9.9.9:9999", gs "0"⟩

def c2wUser : User :=
  ⟨gs "dana", [(gs "dana@9.9.9.9:9999", ⟨c2wConn, gs "dana@9.9.9.9:9999"⟩)], [], [], some 0⟩

def c2wState : Registry := ⟨[(gs "dana", c2wUser)], [gs "dana@9.9.9.9:9999"], [], []⟩

/-- Witness for the amended C2 at a concrete registry. -/
theorem C2_disconnect_removes_iff_no_controllees_witness :
    (lookupA (disconnectUser c2wState (some c2wConn)).users (gs "dana") = none ↔
      c2wUser.clients = []) :=
  C2_disconnect_removes_iff_no_controllees c2wState c2wConn c2wUser (by decide)

/- ### C9: CreateOrGetUser -/

/-- C9: `CreateOrGetUser(username, sshConn)` with a non-nil connection:
the user record exists afterwards (created if absent); the call fails
exactly when a session keyed by the connection-details string
`user@remote-address` already exists on that user; and on success the new
key is stored in the user's sessions and in the global liveness set. -/
theorem C9_createOrGetUser_spec (st : Registry) (username : GoStr) (c : ServerConn)
    (uOld : User) (hu : uOld = (lookupA st.users username).getD (freshUser username)) :
    ((lookupA (createOrGetUser st username (some c)).2.users username).isSome = true) ∧
    ((∃ e, (createOrGetUser st username (some c)).1 = .error e) ↔
      (lookupA uOld.userConnections (makeConnectionDetailsString c)).isSome = true) ∧
    (∀ u2 d, (createOrGetUser st username (some c)).1 = .ok (u2, d) →
      d = makeConnectionDetailsString c ∧
      lookupA (createOrGetUser st username (some c)).2.users username = some u2 ∧
      (lookupA u2.userConnections (makeConnectionDetailsString c)).isSome = true ∧
      makeConnectionDetailsString c ∈
        (createOrGetUser st username (some c)).2.activeConnections) := by
  simp only [createOrGetUser]
  cases hL : lookupA st.users username with
  | none =>
    subst hu
    rw [hL]
    simp only [Option.getD_none, Option.getD_some]
    cases hA : goAtoi c.privilegeExt with
    | none =>
      simp [freshUser, lookupA, lookupA_insertA, mem_setInsert_self]
    | some p =>
      simp [freshUser, lookupA, lookupA_insertA, mem_setInsert_self]
  | some u0 =>
    subst hu
    rw [hL]
    simp only [Option.getD_none, Option.getD_some]
    cases hA : goAtoi c.privilegeExt with
    | none =>
      by_cases hdup : (lookupA u0.userConnections (makeConnectionDetailsString c)).isSome = true
      · simp [hdup, lookupA_insertA]
      · simp [hdup, lookupA_insertA, mem_setInsert_self]
    | some p =>
      by_cases hdup : (lookupA u0.userConnections (makeConnectionDetailsString c)).isSome = true
      · simp [hdup, lookupA_insertA]
      · simp [hdup, lookupA_insertA, mem_setInsert_self]

def c9Conn : ServerConn := ⟨gs "bob", gs "3.3.3.3:3333", gs "5"⟩

def c9U2 : User :=
  ⟨gs "bob", [(gs "bob@3.3.3.3:3333", ⟨c9Conn, gs "bob@3.3.3.3:3333"⟩)], [], [], some 5⟩

/-- Witness for C9: `bob` attaching to an empty registry lands his session
key in his record and in the liveness set. -/
theorem C9_createOrGetUser_spec_witness :
    gs "bob@3.3.3.3:3333" ∈
      (createOrGetUser emptyRegistry (gs "bob") (some c9Conn)).2.activeConnections ∧
    (lookupA (createOrGetUser emptyRegistry (gs "bob") (some c9Conn)).2.users
      (gs "bob")).isSome = true := by
  have h := C9_createOrGetUser_spec emptyRegistry (gs "bob") c9Conn
    (freshUser (gs "bob")) rfl
  have h3 := h.2.2 c9U2 (gs "bob@3.3.3.3:3333") rfl
  exact ⟨h3.2.2.2, h.1⟩

/- ### C10: GetClient mutates the shared alias map -/

/-- C10: for a non-admin caller, resolving an identifier through the alias
map rewrites the global alias entry itself: every controllee ID the caller
does not own is deleted from the shared set, so the pruning persists in the
registry returned to all subsequent lookups. -/
theorem C10_getClient_prunes_global_aliases (st : Registry) (u : User)
    (identifier : GoStr) (ids : List GoStr)
    (hpriv : privilegeOf u ≠ 5)
    (hdirect : lookupA st.allClients identifier = none)
    (halias : lookupA st.aliases identifier = some ids) :
    lookupA (getClient st u identifier).2.aliases identifier =
      some (ids.filter (fun id => (lookupA u.clients id).isSome)) := by
  simp only [getClient]
  rw [hdirect, halias]
  have h5 : (privilegeOf u = 5) = False := by simp [hpriv]
  simp only [h5, not_false_eq_true, if_true, if_false, ite_true, ite_false]
  split
  · split
    · simp [lookupA_insertA]
    · simp [lookupA_insertA]
  · rename_i hcontra
    exact absurd hpriv hcontra

def c10Conn : ServerConn := ⟨gs "cx", gs "8.8.8.8:8888", gs "0"⟩

def c10User : User := ⟨gs "eve", [], [(gs "X", c10Conn)], [], some 0⟩

def c10State : Registry := ⟨[], [], [], [(gs "web", [gs "X", gs "Y"])]⟩

/-- Witness for C10: `eve` (non-admin, owning only `X`) resolving alias
`web` = {X, Y} deletes `Y` from the global alias entry. -/
theorem C10_getClient_prunes_global_aliases_witness :
    lookupA (getClient c10State c10User (gs "web")).2.aliases (gs "web") =
      some [gs "X"] := by
  have h := C10_getClient_prunes_global_aliases c10State c10User (gs "web")
    [gs "X", gs "Y"] (by decide) (by decide) (by decide)
  exact h

/- ### 4.4 Key Decoder (terminal source, lines 356-473) -/

/-- The key constants of the terminal package (the named keys live in the
UTF-16 surrogate area starting at 0xd800, as in the source const block). -/
def keyCtrlC : Rune := 3

def keyCtrlD : Rune := 4

def keyCtrlU : Rune := 21

def keyEnter : Rune := 13

def keyEscape : Rune := 27

def keyBackspace : Rune := 127

def keyUnknown : Rune := 0xd800 + 6

def keyUp : Rune := 0xd800 + 7

def keyDown : Rune := 0xd800 + 8

def keyLeft : Rune := 0xd800 + 9

def keyRight : Rune := 0xd800 + 10

def keyAltLeft : Rune := 0xd800 + 11

def keyAltRight : Rune := 0xd800 + 12

def keyHome : Rune := 0xd800 + 13

def keyDel : Rune := 0xd800 + 14

def keyEnd : Rune := 0xd800 + 15

def keyDeleteWord : Rune := 0xd800 + 16

def keyDeleteLine : Rune := 0xd800 + 17

def keyClearScreen : Rune := 0xd800 + 18

def keyPasteStart : Rune := 0xd800 + 19

def keyPasteEnd : Rune := 0xd800 + 20

/-- `utf8.RuneError` (U+FFFD), used by `bytesToKey` as its sentinel. -/
def runeError : Rune := 0xFFFD

def pasteStartSeq : List Nat := [27, 91, 50, 48, 48, 126]

def pasteEndSeq : List Nat := [27, 91, 50, 48, 49, 126]

/-- The Go `utf8` first-byte table entry (`first[b]`): low 3 bits give the
sequence size, high 4 bits the accept-range index; `0xF0` is ASCII and
`0xF1` an invalid leading byte. -/
def utf8first (b : Nat) : Nat :=
  if b ≤ 0x7F then 0xF0
  else if b ≤ 0xC1 then 0xF1
  else if b ≤ 0xDF then 0x02
  else if b = 0xE0 then 0x13
  else if b ≤ 0xEC then 0x03
  else if b = 0xED then 0x23
  else if b ≤ 0xEF then 0x03
  else if b = 0xF0 then 0x34
  else if b ≤ 0xF3 then 0x04
  else if b = 0xF4 then 0x44
  else 0xF1

/-- Lower bound of the Go `acceptRanges` entry. -/
def acceptLo (i : Nat) : Nat := if i = 1 then 0xA0 else if i = 3 then 0x90 else 0x80

/-- Upper bound of the Go `acceptRanges` entry. -/
def acceptHi (i : Nat) : Nat := if i = 2 then 0x9F else if i = 4 then 0x8F else 0xBF

/-- Go `utf8.FullRune`: whether `p` begins with a full UTF-8 encoding
(an invalid encoding counts as full, since it decodes as a width-1 error). -/
def utf8FullRune (p : List Nat) : Bool :=
  match p with
  | [] => false
  | b0 :: _ =>
    let x := utf8first b0
    if x % 8 ≤ p.length then true
    else
      let lo := acceptLo (x / 16)
      let hi := acceptHi (x / 16)
      if 1 < p.length ∧ (p.getD 1 0 < lo ∨ hi < p.getD 1 0) then true
      else if 2 < p.length ∧ (p.getD 2 0 < 0x80 ∨ 0xBF < p.getD 2 0) then true
      else false

/-- Go `utf8.DecodeRune`: first rune and its byte width (the Go sign-mask
trick for the ASCII/invalid distinction is written out as a comparison;
`&` with a low mask on a byte is written `%` by the corresponding power of
two). -/
def utf8DecodeRune (p : List Nat) : Nat × Nat :=
  match p with
  | [] => (runeError, 0)
  | p0 :: rest =>
    let x := utf8first p0
    if 0xF0 ≤ x then (if x = 0xF0 then p0 else runeError, 1)
    else
      let sz := x % 8
      let lo := acceptLo (x / 16)
      let hi := acceptHi (x / 16)
      if p.length < sz then (runeError, 1)
      else
        match rest with
        | [] => (runeError, 1)
        | b1 :: rest2 =>
          if b1 < lo ∨ hi < b1 then (runeError, 1)
          else if sz ≤ 2 then ((p0 % 32) * 64 + b1 % 64, 2)
          else
            match rest2 with
            | [] => (runeError, 1)
            | b2 :: rest3 =>
              if b2 < 0x80 ∨ 0xBF < b2 then (runeError, 1)
              else if sz ≤ 3 then ((p0 % 16) * 4096 + (b1 % 64) * 64 + b2 % 64, 3)
              else
                match rest3 with
                | [] => (runeError, 1)
                | b3 :: _ =>
                  if b3 < 0x80 ∨ 0xBF < b3 then (runeError, 1)
                  else ((p0 % 8) * 0x40000 + (b1 % 64) * 4096 + (b2 % 64) * 64 + b3 % 64, 4)

/-- Go slice expression `b[i:]`: panics (`none`) when `i` exceeds `len(b)`. -/
def goSliceFrom (b : List Nat) (i : Nat) : Option (List Nat) :=
  if i ≤ b.length then some (b.drop i) else none

/-- `bytesToKey`: parse one key event from the buffer.  `none` models a
runtime panic; `some (runeError, b)` is the sentinel that leaves the buffer
intact so the editor reads more bytes. -/
def bytesToKey (b : List Nat) (pasteActive : Bool) : Option (Rune × List Nat) :=
  match b with
  | [] => some (runeError, [])
  | b0 :: rest =>
    let bb := b0 :: rest
    if pasteActive = false ∧ b0 = 1 then some (keyHome, rest)
    else if pasteActive = false ∧ b0 = 2 then some (keyLeft, rest)
    else if pasteActive = false ∧ b0 = 5 then some (keyEnd, rest)
    else if pasteActive = false ∧ b0 = 6 then some (keyRight, rest)
    else if pasteActive = false ∧ b0 = 8 then some (keyBackspace, rest)
    else if pasteActive = false ∧ b0 = 11 then some (keyDeleteLine, rest)
    else if pasteActive = false ∧ b0 = 12 then some (keyClearScreen, rest)
    else if pasteActive = false ∧ b0 = 23 then some (keyDeleteWord, rest)
    else if pasteActive = false ∧ b0 = 14 then some (keyDown, rest)
    else if pasteActive = false ∧ b0 = 16 then some (keyUp, rest)
    else if b0 ≠ keyEscape then
      if utf8FullRune bb = false then some (runeError, bb)
      else some ((utf8DecodeRune bb).1, bb.drop (utf8DecodeRune bb).2)
    else if pasteActive = false ∧ 3 ≤ bb.length ∧ bb.getD 1 0 = 91 ∧
        (bb.getD 2 0 = 65 ∨ bb.getD 2 0 = 66 ∨ bb.getD 2 0 = 67 ∨ bb.getD 2 0 = 68 ∨
         bb.getD 2 0 = 72 ∨ bb.getD 2 0 = 70 ∨ bb.getD 2 0 = 51) then
      if bb.getD 2 0 = 65 then some (keyUp, bb.drop 3)
      else if bb.getD 2 0 = 66 then some (keyDown, bb.drop 3)
      else if bb.getD 2 0 = 67 then some (keyRight, bb.drop 3)
      else if bb.getD 2 0 = 68 then some (keyLeft, bb.drop 3)
      else if bb.getD 2 0 = 72 then some (keyHome, bb.drop 3)
      else if bb.getD 2 0 = 70 then some (keyEnd, bb.drop 3)
      else
        -- case 51 ('3'): Go returns keyDel, b[4:] with only len(b) >= 3
        -- established, so b[4:] is out of range on the 3-byte buffer
        (goSliceFrom bb 4).map (fun r => (keyDel, r))
    else if pasteActive = false ∧ 6 ≤ bb.length ∧ bb.getD 1 0 = 91 ∧ bb.getD 2 0 = 49 ∧
        bb.getD 3 0 = 59 ∧ bb.getD 4 0 = 51 ∧ (bb.getD 5 0 = 67 ∨ bb.getD 5 0 = 68) then
      if bb.getD 5 0 = 67 then some (keyAltRight, bb.drop 6)
      else some (keyAltLeft, bb.drop 6)
    else if pasteActive = false ∧ 6 ≤ bb.length ∧ bb.take 6 = pasteStartSeq then
      some (keyPasteStart, bb.drop 6)
    else if pasteActive = true ∧ 6 ≤ bb.length ∧ bb.take 6 = pasteEndSeq then
      some (keyPasteEnd, bb.drop 6)
    else
      match bb.findIdx? (fun c => (97 ≤ c && c ≤ 122) || (65 ≤ c && c ≤ 90) || c == 126) with
      | some i => some (keyUnknown, bb.drop (i + 1))
      | none => some (runeError, bb)

/-- C5: evaluation of `bytesToKey` at the inputs that decide the claim.  The
proper prefix ESC `[` `3` makes the decoder evaluate `b[4:]` on a 3-byte
buffer — an out-of-range slice, i.e. a runtime panic (`none`) — instead of
returning the sentinel with the buffer intact, so the decoder is not total
on partial input; the complete ESC `[` `3` `~` sequence does yield Delete
consuming exactly four bytes, and partial escape sequences of other shapes
and partial UTF-8 runes do return the sentinel leaving the buffer intact. -/
theorem C5_bytesToKey_partial_input_eval :
    bytesToKey [27, 91, 51] false = none ∧
    bytesToKey [27, 91, 51, 126] false = some (keyDel, []) ∧
    bytesToKey [27, 91, 51, 126, 65] false = some (keyDel, [65]) ∧
    bytesToKey [27] false = some (runeError, [27]) ∧
    bytesToKey [27, 91] false = some (runeError, [27, 91]) ∧
    bytesToKey [27, 91, 49, 59, 51] false = some (runeError, [27, 91, 49, 59, 51]) ∧
    bytesToKey [0xE2, 0x82] false = some (runeError, [0xE2, 0x82]) ∧
    bytesToKey [0xE2, 0x82, 0xAC] false = some (0x20AC, []) := by
  decide

/- ### 4.3 Line Parser.
The parser (`ParseLine`, node types) lives in a file of the terminal
package that is not part of the provided sources; it is modelled from the
spec here and used by the dispatcher-loop and autocomplete models. -/

/-- Modelled from the spec: the node kinds of a parsed line (the Go types
`Cmd`, `Flag`, `Argument` with their `Type()` tags). -/
inductive NodeKind where
  | cmd
  | flag
  | arg
deriving DecidableEq

/-- Modelled from the spec: a parsed token with its `[start, end)` offsets.
`Value` is the token text (for flags, the name after the dashes). -/
structure Node where
  kind : NodeKind
  Value : GoStr
  Start : Nat
  End : Nat
deriving DecidableEq

/-- Modelled from the spec: the result of `ParseLine` — command node, flag
map, argument nodes, focused node and enclosing section. -/
structure ParsedLine where
  Command : Option Node
  Flags : List (GoStr × GoStr)
  ArgsNodes : List Node
  Focus : Option Node
  Section : Option Node
deriving DecidableEq

/-- Tokeniser: maximal non-whitespace runs with their offsets. -/
def tokenizeAux (s : GoStr) (i : Nat) (cur : GoStr) (curStart : Nat) :
    List (GoStr × Nat × Nat) :=
  match s with
  | [] => if cur.isEmpty then [] else [(cur, curStart, i)]
  | c :: rest =>
    if isSpaceRune c then
      if cur.isEmpty then tokenizeAux rest (i + 1) [] 0
      else (cur, curStart, i) :: tokenizeAux rest (i + 1) [] 0
    else
      if cur.isEmpty then tokenizeAux rest (i + 1) [c] i
      else tokenizeAux rest (i + 1) (cur ++ [c]) curStart

def tokenize (s : GoStr) : List (GoStr × Nat × Nat) := tokenizeAux s 0 [] 0

/-- Modelled from the spec: flag name is the run after the dashes up to the
first `=`; the text after `=` (if any) is the bound value. -/
def splitFlagToken (tok : GoStr) : GoStr × GoStr :=
  let noDash := tok.dropWhile (fun c => c == 45)
  let name := noDash.takeWhile (fun c => !(c == 61))
  let value := (noDash.dropWhile (fun c => !(c == 61))).drop 1
  (name, value)

/-- Modelled from the spec: `ParseLine(line, cursorPosition)`.  The first
token is the Command; later tokens beginning with `-` are Flags, the rest
Arguments.  `Focus` is the node whose token contains the cursor; a cursor
sitting just past the final rune of a token is focused on it when it is at
the end of the line (this is what scenario S1 of the spec — completing
`hel` with the cursor at position 3 — requires), while a cursor on the
whitespace between tokens has `Focus = nil` and `Section` the enclosing
token. -/
def ParseLine (line : GoStr) (cursorPosition : Nat) : ParsedLine :=
  match tokenize line with
  | [] => ⟨none, [], [], none, none⟩
  | (t0, s0, e0) :: restToks =>
    let cmdNode : Node := ⟨NodeKind.cmd, t0, s0, e0⟩
    let others : List Node := restToks.map (fun te =>
      if te.1.headD 0 = 45 then
        ⟨NodeKind.flag, (splitFlagToken te.1).1, te.2.1, te.2.2⟩
      else ⟨NodeKind.arg, te.1, te.2.1, te.2.2⟩)
    let nodes := cmdNode :: others
    let flags := others.filterMap (fun n =>
      if n.kind = NodeKind.flag then some (n.Value, (splitFlagToken (line.take n.End |>.drop n.Start)).2) else none)
    let args := others.filter (fun n => n.kind = NodeKind.arg)
    let focus := nodes.find? (fun n =>
      n.Start ≤ cursorPosition &&
        (cursorPosition < n.End ||
          (cursorPosition == n.End && cursorPosition == line.length)))
    let sec := nodes.find? (fun n => n.Start ≤ cursorPosition && cursorPosition ≤ n.End)
    ⟨some cmdNode, flags, args, focus, sec⟩

/- ### 4.7 Command Dispatcher: the `Run` loop (terminal source, lines 502-558) -/

/-- The capability contract of a registered command, as consumed by the
dispatcher and the autocompleter (`Run` itself is modelled per-event by the
trace, and `Help` output is printing only). -/
structure Command where
  expect : ParsedLine → List GoStr
  validArgs : List (GoStr × GoStr)

/-- The error kinds flowing through the dispatcher loop: `io.EOF`
(EndOfInput from a handler), `ErrCtrlD`, `ErrPasteIndicator`, or any other
error value. -/
inductive GoErr where
  | eof
  | ctrlD
  | pasteIndicator
  | other (msg : GoStr)
deriving DecidableEq

/-- One iteration's inputs for the `Run` loop: the `ReadLine` result and the
error the command handler would return if invoked. -/
structure RunEvent where
  line : GoStr
  rlErr : Option GoErr
  handlerErr : Option GoErr
deriving DecidableEq

/-- Whether the dispatcher reaches `f.Run`: the line parses to a known
command, neither `-h` nor `--help` is present, and every flag is valid. -/
def handlerRuns (fns : List (GoStr × Command)) (line : GoStr) : Bool :=
  match (ParseLine line 0).Command with
  | none => false
  | some cmdNode =>
    match lookupA fns cmdNode.Value with
    | none => false
    | some f =>
      let flags := (ParseLine line 0).Flags
      if (lookupA flags (gs "h")).isSome || (lookupA flags (gs "help")).isSome then false
      else
        (flags.filter (fun fl =>
          (lookupA f.validArgs fl.1).isNone &&
            !(fl.1 = gs "h" : Bool) && !(fl.1 = gs "help" : Bool))).isEmpty

/-- `Terminal.Run` over a trace of `ReadLine` results: returns `some e` when
the loop exits with error `e`, `none` when the trace is exhausted with the
loop still running.  `ReadLine` is called with `t.pos = 0` (reset by the
Enter handling), unknown commands / help requests / invalid flags print and
continue, and a handler error equal to `io.EOF` is returned while any other
handler error is printed. -/
def runModel (fns : List (GoStr × Command)) : List RunEvent → Option GoErr
  | [] => none
  | ev :: rest =>
    match ev.rlErr with
    | some e => some e
    | none =>
      if handlerRuns fns ev.line then
        match ev.handlerErr with
        | some GoErr.eof => some GoErr.eof
        | _ => runModel fns rest
      else runModel fns rest

def c1Fns : List (GoStr × Command) := [(gs "ls", ⟨fun _ => [], []⟩)]

def c1Events : List RunEvent :=
  [⟨gs "echo hi", some GoErr.pasteIndicator, none⟩, ⟨gs "ls", none, none⟩]

/-- C1 counterexample: a line delivered together with the advisory
PasteIndicator error terminates the `Run` loop — `Run` returns on any
non-nil `ReadLine` error — refuting the claim that the loop exits only on
EndOfInput and continues past PasteIndicator lines. -/
theorem C1_run_loop_counterexample :
    runModel c1Fns c1Events = some GoErr.pasteIndicator ∧
    GoErr.pasteIndicator ≠ GoErr.eof ∧ GoErr.pasteIndicator ≠ GoErr.ctrlD := by
  decide

/-- C1 amended: the loop exits exactly when `ReadLine` returns any non-nil
error — including `ErrCtrlD` and the advisory PasteIndicator — or when an
invoked handler returns EndOfInput (`io.EOF`); in every other case
(unknown command, help request, invalid flags, any other handler error,
which are printed) the loop continues with the next `ReadLine`. -/
theorem C1_run_loop_exit_conditions (fns : List (GoStr × Command)) (ev : RunEvent)
    (rest : List RunEvent) :
    runModel fns [] = none ∧
    runModel fns (ev :: rest) =
      (match ev.rlErr with
       | some e => some e
       | none =>
         if handlerRuns fns ev.line ∧ ev.handlerErr = some GoErr.eof then some GoErr.eof
         else runModel fns rest) := by
  refine ⟨rfl, ?_⟩
  cases hrl : ev.rlErr with
  | some e => simp [runModel, hrl]
  | none =>
    by_cases hh : handlerRuns fns ev.line = true
    · cases hhe : ev.handlerErr with
      | none => simp [runModel, hrl, hh, hhe]
      | some e => cases e <;> simp [runModel, hrl, hh, hhe]
    · simp [runModel, hrl, hh]

/- ### Editor state: the `Terminal` struct (terminal source, lines 56-129) -/

/-- The editor-relevant state of `terminal.Terminal`.  The I/O channel, the
lock, the session and the raw-mode plumbing are effectful collaborators
outside the state; `outBuf` accumulates the runes queued for the channel
(the Go field holds their UTF-8 bytes).  The command registry `functions`
and the tries are carried so the autocomplete orchestration can be run. -/
structure Terminal where
  prompt : GoStr
  line : GoStr
  pos : Nat
  echo : Bool
  pasteActive : Bool
  cursorX : Nat
  cursorY : Nat
  maxLine : Nat
  termWidth : Nat
  termHeight : Nat
  outBuf : GoStr
  history : stRingBuffer
  historyIndex : Int
  historyPending : GoStr
  autoCompleteIndex : Nat
  autoCompletePos : Nat
  autoCompletePendng : GoStr
  autoCompleting : Bool
  functions : List (GoStr × Command)
  functionsAutoComplete : List GoStr
  autoCompleteValues : List (GoStr × List (List GoStr))

/-- Modelled from the spec: `trie.PrefixMatch` (the trie lives in pkg/trie,
outside the provided sources) — all registered strings with the given
prefix, in registration order; callers sort. -/
def PrefixMatch (t : List GoStr) (p : GoStr) : List GoStr :=
  t.filter (fun s => p.isPrefixOf s)

/-- Go `sort.Strings` comparison: lexicographic byte order. -/
def lexLe (a b : GoStr) : Bool :=
  match a, b with
  | [], _ => true
  | _ :: _, [] => false
  | x :: xs, y :: ys => if x < y then true else if y < x then false else lexLe xs ys

def insertSorted (x : GoStr) (l : List GoStr) : List GoStr :=
  match l with
  | [] => [x]
  | y :: ys => if lexLe x y then x :: y :: ys else y :: insertSorted x ys

/-- Go `sort.Strings`. -/
def sortStrings (l : List GoStr) : List GoStr := l.foldr insertSorted []

def Terminal.resetAutoComplete (t : Terminal) : Terminal :=
  { t with autoCompleteIndex := 0, autoCompletePendng := [],
           autoCompleting := false, autoCompletePos := 0 }

def Terminal.startAutoComplete (t : Terminal) (lineFragment : GoStr) (pos : Nat) :
    Terminal :=
  { t with autoCompleteIndex := 0, autoCompletePendng := lineFragment,
           autoCompleting := true, autoCompletePos := pos }

/-- `buildDisplayLine` (terminal source, lines 329-354): rebuild the display
line around the focused token with the chosen match; `newPos` is the length
before the suffix is appended.  (The Go default branch panics on an unknown
node type; the three kinds are exhaustive here.) -/
def buildDisplayLine (focus : Option Node) (line : GoStr) (mtch : GoStr)
    (currentPos : Nat) : GoStr × Nat :=
  match focus with
  | none =>
    let output := line.take currentPos ++ mtch
    (output ++ line.drop currentPos, output.length)
  | some f =>
    let pre : GoStr :=
      match f.kind with
      | NodeKind.cmd => []
      | NodeKind.arg => line.take f.Start
      | NodeKind.flag => line.take f.End ++ [32]
    let output := pre ++ mtch
    (output ++ line.drop f.End, output.length)

/-- The `Expect`-delegation branch of `defaultAutoComplete`: candidates from
the focused command's `Expect`, with a single `<tag>` placeholder replaced
by the registered tries' prefix matches against the focused value. -/
def expectMatches (t : Terminal) (parsedLine : ParsedLine) (cmdNode : Node) :
    List GoStr :=
  match lookupA t.functions cmdNode.Value with
  | none => []
  | some f =>
    let expected := f.expect parsedLine
    match expected with
    | [e0] =>
      if 1 < e0.length ∧ e0.headD 0 = 60 ∧ e0.getLast? = some 62 then
        match lookupA t.autoCompleteValues e0 with
        | some tries =>
          let searchString :=
            match parsedLine.Focus with
            | none => []
            | some f2 =>
              if (match parsedLine.Section with
                  | none => true
                  | some sec => f2.Start ≠ sec.Start) then f2.Value else []
          tries.foldl (fun acc tr => acc ++ PrefixMatch tr searchString) []
        | none => [e0]
      else [e0]
    | es => es

/-- `defaultAutoComplete` (terminal source, lines 248-327): on Tab, snapshot
the line as the completion base, compute candidates, sort them, and either
commit a single candidate (with a trailing space when completing the
command token) or cycle through many by `autoCompleteIndex`; any other key
resets the completion state.  Returns the callback result and the mutated
terminal. -/
def defaultAutoComplete (t : Terminal) (line : GoStr) (pos : Nat) (key : Rune) :
    (GoStr × Nat × Bool) × Terminal :=
  if key = 9 then
    let t1 := if t.autoCompleting = false then t.startAutoComplete line pos else t
    let parsedLine := ParseLine t1.autoCompletePendng t1.autoCompletePos
    let cands :=
      match parsedLine.Command with
      | none => PrefixMatch t1.functionsAutoComplete []
      | some cmdNode =>
        match parsedLine.Focus with
        | some f =>
          if f.Start = 0 then PrefixMatch t1.functionsAutoComplete f.Value
          else expectMatches t1 parsedLine cmdNode
        | none => expectMatches t1 parsedLine cmdNode
    let cands2 := sortStrings cands
    let parsed2 := ParseLine line pos
    match cands2 with
    | [m] =>
      let t2 := t1.resetAutoComplete
      let bd := buildDisplayLine parsed2.Focus line m pos
      let out :=
        if (parsed2.Focus.map Node.kind) = some NodeKind.cmd then (bd.1 ++ [32], bd.2 + 1)
        else bd
      ((out.1, out.2, true), t2)
    | m0 :: m1 :: ms =>
      let matchesL := m0 :: m1 :: ms
      let currentMatch := matchesL.getD t1.autoCompleteIndex []
      let t2 := { t1 with autoCompleteIndex := (t1.autoCompleteIndex + 1) % matchesL.length }
      let bd := buildDisplayLine parsed2.Focus line currentMatch pos
      ((bd.1, bd.2, true), t2)
    | [] => ((([] : GoStr), 0, false), t1)
  else
    ((([] : GoStr), 0, false), t.resetAutoComplete)

/- ### C6: Tab-completion cycling -/

def c6Cmd : Command := ⟨fun _ => [], []⟩

/-- An advanced terminal with command set {help, hello, exit}. -/
def c6Term0 : Terminal :=
  { prompt := gs "> ", line := gs "hel", pos := 3, echo := true, pasteActive := false,
    cursorX := 0, cursorY := 0, maxLine := 0, termWidth := 80, termHeight := 24,
    outBuf := [], history := stRingBuffer.init, historyIndex := -1, historyPending := [],
    autoCompleteIndex := 0, autoCompletePos := 0, autoCompletePendng := [],
    autoCompleting := false,
    functions := [(gs "help", c6Cmd), (gs "hello", c6Cmd), (gs "exit", c6Cmd)],
    functionsAutoComplete := [gs "help", gs "hello", gs "exit"],
    autoCompleteValues := [] }

/-- One Tab keypress as `handleKey` applies the callback: when the callback
accepts, the line and cursor are replaced by its result. -/
def tabOnce (t : Terminal) (line : GoStr) (pos : Nat) : Terminal × GoStr × Nat :=
  let r := defaultAutoComplete t line pos 9
  if r.1.2.2 then (r.2, r.1.1, r.1.2.1) else (r.2, line, pos)

def c6After1 : Terminal × GoStr × Nat := tabOnce c6Term0 (gs "hel") 3

def c6After2 : Terminal × GoStr × Nat := tabOnce c6After1.1 c6After1.2.1 c6After1.2.2

def c6After3 : Terminal × GoStr × Nat := tabOnce c6After2.1 c6After2.2.1 c6After2.2.2

/-- C6 counterexample: with command set {help, hello, exit} and line `hel`
(cursor at the end), the first Tab completes to `hello`, not `help`:
`sort.Strings` orders `hello` before `help` (l < p), so the cycle starts at
`hello`. -/
theorem C6_first_tab_counterexample :
    c6After1.2.1 = gs "hello" ∧ gs "hello" ≠ gs "help" := by
  decide

/-- C6 amended: successive Tabs cycle through the sorted candidate list
`[hello, help]` with the index advanced modulo the candidate count, each
time fully replacing the line: first Tab → `hello`, second Tab → `help`,
third Tab → `hello` again. -/
theorem C6_tab_cycling :
    c6After1.2.1 = gs "hello" ∧ c6After1.2.2 = 5 ∧
    c6After2.2.1 = gs "help" ∧ c6After2.2.2 = 4 ∧
    c6After3.2.1 = gs "hello" ∧ c6After3.2.2 = 5 := by
  decide

/- ### 4.5 Editor Core: cursor math and line editing (terminal source) -/

/-- `visualLength`: visible glyphs, skipping ANSI escape runs (0x1B up to
the next ASCII letter). -/
def visualLengthAux (runes : GoStr) (inEsc : Bool) (len : Nat) : Nat :=
  match runes with
  | [] => len
  | r :: rest =>
    if inEsc then
      if (97 ≤ r && r ≤ 122) || (65 ≤ r && r ≤ 90) then visualLengthAux rest false len
      else visualLengthAux rest true len
    else if r = 27 then visualLengthAux rest true len
    else visualLengthAux rest false (len + 1)

def visualLength (runes : GoStr) : Nat := visualLengthAux runes false 0

/-- `queue`: append data to `outBuf`. -/
def Terminal.queue (t : Terminal) (data : GoStr) : Terminal :=
  { t with outBuf := t.outBuf ++ data }

/-- `move`: emit `CSI n A/B/C/D` (omitting `n` when 1) for each direction. -/
def Terminal.move (t : Terminal) (up down left right : Nat) : Terminal :=
  let m : GoStr :=
    (if up = 1 then [27, 91, 65]
     else if 1 < up then [27, 91] ++ natDigits up ++ [65] else []) ++
    (if down = 1 then [27, 91, 66]
     else if 1 < down then [27, 91] ++ natDigits down ++ [66] else []) ++
    (if right = 1 then [27, 91, 67]
     else if 1 < right then [27, 91] ++ natDigits right ++ [67] else []) ++
    (if left = 1 then [27, 91, 68]
     else if 1 < left then [27, 91] ++ natDigits left ++ [68] else [])
  t.queue m

/-- `advanceCursor`: advance by `places` cells, wrapping at `termWidth`
(emitting CRLF when stopping at the end of a line) and tracking `maxLine`.
All call sites pass non-negative counts. -/
def Terminal.advanceCursor (t : Terminal) (places : Nat) : Terminal :=
  let cx := t.cursorX + places
  let cy := t.cursorY + cx / t.termWidth
  { t with
    cursorX := cx % t.termWidth
    cursorY := cy
    maxLine := if t.maxLine < cy then cy else t.maxLine
    outBuf := if 0 < places ∧ cx % t.termWidth = 0 then t.outBuf ++ [13, 10]
              else t.outBuf }

/-- `moveCursorToPos`: reconcile the on-screen cursor with logical `pos`. -/
def Terminal.moveCursorToPos (t : Terminal) (pos : Nat) : Terminal :=
  if t.echo = false then t
  else
    let x := visualLength t.prompt + pos
    let y := x / t.termWidth
    let x2 := x % t.termWidth
    let up := if y < t.cursorY then t.cursorY - y else 0
    let down := if t.cursorY < y then y - t.cursorY else 0
    let left := if x2 < t.cursorX then t.cursorX - x2 else 0
    let right := if t.cursorX < x2 then x2 - t.cursorX else 0
    Terminal.move { t with cursorX := x2, cursorY := y } up down left right

/-- `clearLineToRight`: emit `CSI K`. -/
def Terminal.clearLineToRight (t : Terminal) : Terminal := t.queue [27, 91, 75]

/-- The `maxLineLength` constant. -/
def maxLineLength : Nat := 4096

/-- `writeLine`: write runes, wrapping at `termWidth`.  (When
`termWidth - cursorX` is zero the Go loop would spin forever; that state is
unreachable because `cursorX` always stays below `termWidth`.) -/
def Terminal.writeLine (t : Terminal) (line : GoStr) : Terminal :=
  if line.isEmpty then t
  else
    let remainingOnLine := t.termWidth - t.cursorX
    let todo := min line.length remainingOnLine
    if todo = 0 then t
    else
      let t2 := (t.queue (line.take todo)).advanceCursor (visualLength (line.take todo))
      t2.writeLine (line.drop todo)
termination_by line.length
decreasing_by
  simp_wf
  cases line with
  | nil => simp_all
  | cons a rest => simp_all; omega

/-- `setLine`: repaint from column zero with `newLine`, blanking the tail of
the previous line, then install the new line and cursor. -/
def Terminal.setLine (t : Terminal) (newLine : GoStr) (newPos : Nat) : Terminal :=
  let t1 :=
    if t.echo then
      let ta := t.moveCursorToPos 0
      let tb := ta.writeLine newLine
      let tc := (List.range (t.line.length - newLine.length)).foldl
        (fun acc _ => acc.writeLine [32]) tb
      tc.moveCursorToPos newPos
    else t
  { t1 with line := newLine, pos := newPos }

/-- `eraseNPreviousChars`: delete `n` runes before the cursor. -/
def Terminal.eraseNPreviousChars (t : Terminal) (n : Nat) : Terminal :=
  if n = 0 then t
  else
    let n2 := min n t.pos
    let t1 := { t with pos := t.pos - n2 }
    let t2 := t1.moveCursorToPos t1.pos
    let t3 := { t2 with line := t2.line.take t2.pos ++ t2.line.drop (t2.pos + n2) }
    if t3.echo then
      let t4 := t3.writeLine (t3.line.drop t3.pos)
      let t5 := (List.range n2).foldl (fun acc _ => acc.queue [32]) t4
      let t6 := t5.advanceCursor n2
      t6.moveCursorToPos t6.pos
    else t3

/-- First loop of `countToLeftWord`: step left over spaces. -/
def skipSpacesLeft (line : GoStr) (pos : Nat) : Nat :=
  if pos = 0 then 0
  else if !(line.getD pos 0 == 32) then pos
  else skipSpacesLeft line (pos - 1)
termination_by pos
decreasing_by omega

/-- Second loop of `countToLeftWord`: step left to just past the next space. -/
def findWordBreakLeft (line : GoStr) (pos : Nat) : Nat :=
  if pos = 0 then 0
  else if line.getD pos 0 == 32 then pos + 1
  else findWordBreakLeft line (pos - 1)
termination_by pos
decreasing_by omega

/-- `countToLeftWord`. -/
def Terminal.countToLeftWord (t : Terminal) : Nat :=
  if t.pos = 0 then 0
  else t.pos - findWordBreakLeft t.line (skipSpacesLeft t.line (t.pos - 1))

/-- First loop of `countToRightWord`: step right over the current word. -/
def skipNonSpacesRight (line : GoStr) (pos : Nat) : Nat :=
  if h : pos < line.length then
    if line.getD pos 0 == 32 then pos else skipNonSpacesRight line (pos + 1)
  else pos
termination_by line.length - pos
decreasing_by omega

/-- Second loop of `countToRightWord`: step right over spaces. -/
def skipSpacesRight (line : GoStr) (pos : Nat) : Nat :=
  if h : pos < line.length then
    if !(line.getD pos 0 == 32) then pos else skipSpacesRight line (pos + 1)
  else pos
termination_by line.length - pos
decreasing_by omega

/-- `countToRightWord`. -/
def Terminal.countToRightWord (t : Terminal) : Nat :=
  skipSpacesRight t.line (skipNonSpacesRight t.line t.pos) - t.pos

/-- `addKeyToLine`: insert `key` at the cursor (the slice-capacity doubling
of the Go code is an allocation detail). -/
def Terminal.addKeyToLine (t : Terminal) (key : Rune) : Terminal :=
  let t1 := { t with line := t.line.take t.pos ++ [key] ++ t.line.drop t.pos }
  let t2 := if t1.echo then t1.writeLine (t1.line.drop t1.pos) else t1
  let t3 := { t2 with pos := t2.pos + 1 }
  t3.moveCursorToPos t3.pos

/-- `isPrintable`. -/
def isPrintable (key : Rune) : Bool :=
  32 ≤ key && !(0xd800 ≤ key && key ≤ 0xdbff)

/-- The autocomplete callback signature as seen by `handleKey` (the Go
callback also receives the terminal; `defaultAutoComplete`'s own state
mutation is modelled separately above, and `handleKey` is analysed here
with no callback installed, as in a basic `NewTerminal`). -/
def ACCallback := GoStr → Nat → Rune → GoStr × Nat × Bool

/-- The tail of `handleKey`'s default branch after the callback declined:
drop unprintable keys, drop printable keys when the line already holds
`maxLineLength` runes, otherwise insert. -/
def Terminal.handleKeyDefault (t : Terminal) (key : Rune) : Terminal × Option GoStr :=
  if isPrintable key = false then (t, none)
  else if t.line.length = maxLineLength then (t, none)
  else (t.addKeyToLine key, none)

/-- `handleKey` (terminal source, lines 811-964): process one key event,
returning the updated terminal and the completed line (if any).  While a
bracketed paste is active every key except Enter is inserted literally. -/
def Terminal.handleKey (cb : Option ACCallback) (t : Terminal) (key : Rune) :
    Terminal × Option GoStr :=
  if t.pasteActive = true ∧ key ≠ keyEnter then
    (t.resetAutoComplete.addKeyToLine key, none)
  else
    let t1 := if key = keyBackspace ∨ key = keyAltLeft ∨ key = keyAltRight ∨
        key = keyLeft ∨ key = keyRight ∨ key = keyHome ∨ key = keyEnd ∨
        key = keyDel ∨ key = keyUp ∨ key = keyDown ∨ key = keyEnter ∨
        key = keyDeleteWord ∨ key = keyDeleteLine ∨ key = keyCtrlD ∨
        key = keyCtrlU ∨ key = keyClearScreen then t.resetAutoComplete else t
    if key = keyDel then
      if t1.line.length ≤ t1.pos ∨ t1.line.length = 0 then (t1, none)
      else ({ t1 with pos := t1.pos + 1 }.eraseNPreviousChars 1, none)
    else if key = keyBackspace then
      if t1.pos = 0 then (t1, none)
      else (t1.eraseNPreviousChars 1, none)
    else if key = keyAltLeft then
      let t2 := { t1 with pos := t1.pos - t1.countToLeftWord }
      (t2.moveCursorToPos t2.pos, none)
    else if key = keyAltRight then
      let t2 := { t1 with pos := t1.pos + t1.countToRightWord }
      (t2.moveCursorToPos t2.pos, none)
    else if key = keyLeft then
      if t1.pos = 0 then (t1, none)
      else
        let t2 := { t1 with pos := t1.pos - 1 }
        (t2.moveCursorToPos t2.pos, none)
    else if key = keyRight then
      if t1.pos = t1.line.length then (t1, none)
      else
        let t2 := { t1 with pos := t1.pos + 1 }
        (t2.moveCursorToPos t2.pos, none)
    else if key = keyHome then
      if t1.pos = 0 then (t1, none)
      else ({ t1 with pos := 0 }.moveCursorToPos 0, none)
    else if key = keyEnd then
      if t1.pos = t1.line.length then (t1, none)
      else
        let t2 := { t1 with pos := t1.line.length }
        (t2.moveCursorToPos t2.pos, none)
    else if key = keyUp then
      let r := t1.history.NthPreviousEntry (t1.historyIndex + 1)
      if r.2 = false then (t1, none)
      else
        let t2 := if t1.historyIndex = -1 then { t1 with historyPending := t1.line }
                  else t1
        let t3 := { t2 with historyIndex := t2.historyIndex + 1 }
        (t3.setLine r.1 r.1.length, none)
    else if key = keyDown then
      if t1.historyIndex = -1 then (t1, none)
      else if t1.historyIndex = 0 then
        let t2 := t1.setLine t1.historyPending t1.historyPending.length
        ({ t2 with historyIndex := t2.historyIndex - 1 }, none)
      else
        let r := t1.history.NthPreviousEntry (t1.historyIndex - 1)
        if r.2 then
          ({ t1 with historyIndex := t1.historyIndex - 1 }.setLine r.1 r.1.length, none)
        else (t1, none)
    else if key = keyEnter then
      let t2 := t1.moveCursorToPos t1.line.length
      let t3 := t2.queue [13, 10]
      let lineOut := t3.line
      ({ t3 with line := [], pos := 0, cursorX := 0, cursorY := 0, maxLine := 0 },
        some lineOut)
    else if key = keyDeleteWord then
      (t1.eraseNPreviousChars t1.countToLeftWord, none)
    else if key = keyDeleteLine then
      let t2 := (List.range (t1.line.length - t1.pos)).foldl
        (fun acc _ => (acc.queue [32]).advanceCursor 1) t1
      let t3 := { t2 with line := t2.line.take t2.pos }
      (t3.moveCursorToPos t3.pos, none)
    else if key = keyCtrlD then
      if t1.pos < t1.line.length then
        ({ t1 with pos := t1.pos + 1 }.eraseNPreviousChars 1, none)
      else (t1, none)
    else if key = keyCtrlU then
      (t1.eraseNPreviousChars t1.pos, none)
    else if key = keyClearScreen then
      let t2 := t1.queue [27, 91, 50, 74, 27, 91, 72]
      let t3 := t2.queue t2.prompt
      let t4 := { t3 with cursorX := 0, cursorY := 0 }
      let t5 := t4.advanceCursor (visualLength t4.prompt)
      (t5.setLine t5.line t5.pos, none)
    else if key = keyCtrlC then
      let t2 := t1.queue [94, 67, 13, 10]
      let t3 := t2.queue t2.prompt
      let t4 := { t3 with cursorX := 0 }
      let t5 := t4.advanceCursor (visualLength t4.prompt)
      (t5.setLine [] 0, none)
    else
      match cb with
      | some f =>
        let r := f (t1.line.take t1.pos ++ t1.line.drop t1.pos) t1.pos key
        if r.2.2 then (t1.setLine r.1 r.2.1, none)
        else t1.handleKeyDefault key
      | none => t1.handleKeyDefault key

/- ### Helper lemmas: the output machinery never touches `line` -/

@[simp] theorem Terminal.queue_line (t : Terminal) (d : GoStr) :
    (t.queue d).line = t.line := rfl

@[simp] theorem Terminal.move_line (t : Terminal) (u d l r : Nat) :
    (t.move u d l r).line = t.line := rfl

@[simp] theorem Terminal.advanceCursor_line (t : Terminal) (p : Nat) :
    (t.advanceCursor p).line = t.line := rfl

@[simp] theorem Terminal.clearLineToRight_line (t : Terminal) :
    t.clearLineToRight.line = t.line := rfl

@[simp] theorem Terminal.moveCursorToPos_line (t : Terminal) (p : Nat) :
    (t.moveCursorToPos p).line = t.line := by
  rw [Terminal.moveCursorToPos]
  split <;> rfl

@[simp] theorem Terminal.resetAutoComplete_line (t : Terminal) :
    t.resetAutoComplete.line = t.line := rfl

@[simp] theorem Terminal.resetAutoComplete_pos (t : Terminal) :
    t.resetAutoComplete.pos = t.pos := rfl

@[simp] theorem Terminal.resetAutoComplete_history (t : Terminal) :
    t.resetAutoComplete.history = t.history := rfl

@[simp] theorem Terminal.resetAutoComplete_historyIndex (t : Terminal) :
    t.resetAutoComplete.historyIndex = t.historyIndex := rfl

@[simp] theorem Terminal.resetAutoComplete_historyPending (t : Terminal) :
    t.resetAutoComplete.historyPending = t.historyPending := rfl

@[simp] theorem Terminal.resetAutoComplete_echo (t : Terminal) :
    t.resetAutoComplete.echo = t.echo := rfl

theorem Terminal.writeLine_line_aux (n : Nat) :
    ∀ (l : GoStr) (t : Terminal), l.length ≤ n → (t.writeLine l).line = t.line := by
  induction n with
  | zero =>
    intro l t hl
    have hnil : l = [] := by
      cases l with
      | nil => rfl
      | cons a rest => simp at hl
    subst hnil
    rw [Terminal.writeLine]
    simp
  | succ n ih =>
    intro l t hl
    rw [Terminal.writeLine]
    simp only []
    split_ifs with h1 h2
    · rfl
    · rfl
    · rw [ih]
      · rfl
      · simp only [List.length_drop]
        omega

@[simp] theorem Terminal.writeLine_line (t : Terminal) (l : GoStr) :
    (t.writeLine l).line = t.line :=
  Terminal.writeLine_line_aux l.length l t le_rfl

theorem foldl_queue_line (l : List Nat) (t : Terminal) :
    (l.foldl (fun acc _ => acc.queue [32]) t).line = t.line := by
  induction l generalizing t with
  | nil => rfl
  | cons a rest ih => simpa using ih (t.queue [32])

theorem foldl_writeLine_line (l : List Nat) (t : Terminal) :
    (l.foldl (fun acc _ => acc.writeLine [32]) t).line = t.line := by
  induction l generalizing t with
  | nil => rfl
  | cons a rest ih =>
    rw [List.foldl_cons, ih, Terminal.writeLine_line]

theorem foldl_queue_advance_line (l : List Nat) (t : Terminal) :
    (l.foldl (fun acc _ => (acc.queue [32]).advanceCursor 1) t).line = t.line := by
  induction l generalizing t with
  | nil => rfl
  | cons a rest ih => simpa using ih ((t.queue [32]).advanceCursor 1)

@[simp] theorem Terminal.setLine_line (t : Terminal) (nl : GoStr) (np : Nat) :
    (t.setLine nl np).line = nl := rfl

theorem Terminal.addKeyToLine_line (t : Terminal) (k : Rune) :
    (t.addKeyToLine k).line = t.line.take t.pos ++ [k] ++ t.line.drop t.pos := by
  simp only [Terminal.addKeyToLine, Terminal.moveCursorToPos_line]
  split <;> simp

theorem Terminal.addKeyToLine_length (t : Terminal) (k : Rune) :
    (t.addKeyToLine k).line.length = t.line.length + 1 := by
  rw [Terminal.addKeyToLine_line]
  simp only [List.length_append, List.length_take, List.length_cons,
    List.length_nil, List.length_drop]
  omega

theorem Terminal.erase_length_le (t : Terminal) (n : Nat) :
    (t.eraseNPreviousChars n).line.length ≤ t.line.length := by
  rw [Terminal.eraseNPreviousChars]
  simp only []
  split_ifs with h1 h2
  · exact le_rfl
  · simp only [Terminal.moveCursorToPos_line, Terminal.writeLine_line,
      Terminal.advanceCursor_line, foldl_queue_line]
    simp only [List.length_append, List.length_take, List.length_drop]
    omega
  · simp only [Terminal.moveCursorToPos_line]
    simp only [List.length_append, List.length_take, List.length_drop]
    omega

/-- A printable key other than Backspace falls through every special-key
case of `handleKey` into the default insertion branch. -/
theorem Terminal.handleKey_none_printable (t : Terminal) (key : Nat)
    (hpaste : t.pasteActive = false) (hp : isPrintable key = true)
    (hb : key ≠ keyBackspace) :
    Terminal.handleKey none t key = t.handleKeyDefault key := by
  have hp2 : 32 ≤ key ∧ (key < 55296 ∨ 56319 < key) := by
    simpa [isPrintable] using hp
  have hb2 : key ≠ 127 := hb
  obtain ⟨h32, hsur⟩ := hp2
  rw [Terminal.handleKey]
  rw [if_neg (by simp [hpaste])]
  rw [if_neg (show ¬(key = keyBackspace ∨ key = keyAltLeft ∨ key = keyAltRight ∨
      key = keyLeft ∨ key = keyRight ∨ key = keyHome ∨ key = keyEnd ∨
      key = keyDel ∨ key = keyUp ∨ key = keyDown ∨ key = keyEnter ∨
      key = keyDeleteWord ∨ key = keyDeleteLine ∨ key = keyCtrlD ∨
      key = keyCtrlU ∨ key = keyClearScreen) by
    simp only [keyBackspace, keyAltLeft, keyAltRight, keyLeft, keyRight, keyHome,
      keyEnd, keyDel, keyUp, keyDown, keyEnter, keyDeleteWord, keyDeleteLine,
      keyCtrlD, keyCtrlU, keyClearScreen]
    omega)]
  rw [if_neg (show ¬(key = keyDel) by simp only [keyDel]; omega)]
  rw [if_neg (show ¬(key = keyBackspace) by simp only [keyBackspace]; omega)]
  rw [if_neg (show ¬(key = keyAltLeft) by simp only [keyAltLeft]; omega)]
  rw [if_neg (show ¬(key = keyAltRight) by simp only [keyAltRight]; omega)]
  rw [if_neg (show ¬(key = keyLeft) by simp only [keyLeft]; omega)]
  rw [if_neg (show ¬(key = keyRight) by simp only [keyRight]; omega)]
  rw [if_neg (show ¬(key = keyHome) by simp only [keyHome]; omega)]
  rw [if_neg (show ¬(key = keyEnd) by simp only [keyEnd]; omega)]
  rw [if_neg (show ¬(key = keyUp) by simp only [keyUp]; omega)]
  rw [if_neg (show ¬(key = keyDown) by simp only [keyDown]; omega)]
  rw [if_neg (show ¬(key = keyEnter) by simp only [keyEnter]; omega)]
  rw [if_neg (show ¬(key = keyDeleteWord) by simp only [keyDeleteWord]; omega)]
  rw [if_neg (show ¬(key = keyDeleteLine) by simp only [keyDeleteLine]; omega)]
  rw [if_neg (show ¬(key = keyCtrlD) by simp only [keyCtrlD]; omega)]
  rw [if_neg (show ¬(key = keyCtrlU) by simp only [keyCtrlU]; omega)]
  rw [if_neg (show ¬(key = keyClearScreen) by simp only [keyClearScreen]; omega)]
  rw [if_neg (show ¬(key = keyCtrlC) by simp only [keyCtrlC]; omega)]

theorem Terminal.handleKeyDefault_length (t : Terminal) (key : Nat)
    (h : t.line.length ≤ maxLineLength) :
    (t.handleKeyDefault key).1.line.length ≤ maxLineLength := by
  rw [Terminal.handleKeyDefault]
  split_ifs with h1 h2
  · exact h
  · exact h
  · show (t.addKeyToLine key).line.length ≤ maxLineLength
    rw [Terminal.addKeyToLine_length]
    simp only [maxLineLength] at *
    omega


/-- C3 amended: outside bracketed paste (and with no autocomplete callback
installed), `handleKey` keeps the line within 4096 runes whenever the line,
the stored history entries and the pending history line are within 4096;
and a printable key arriving on a full 4096-rune line is discarded without
changing the line.  (Inside bracketed paste the bound does not hold — see
the counterexample.) -/
theorem C3_line_bound_outside_paste (t : Terminal) (key : Nat)
    (hpaste : t.pasteActive = false)
    (hline : t.line.length ≤ maxLineLength)
    (hhist : ∀ n : Int, (t.history.NthPreviousEntry n).1.length ≤ maxLineLength)
    (hpend : t.historyPending.length ≤ maxLineLength) :
    (Terminal.handleKey none t key).1.line.length ≤ maxLineLength ∧
    (isPrintable key = true → key ≠ keyBackspace → t.line.length = maxLineLength →
      (Terminal.handleKey none t key).1.line = t.line) := by
  constructor
  · by_cases h1 : key = keyDel
    · subst h1
      simp only [Terminal.handleKey]
      rw [if_neg (by simp [hpaste])]
      norm_num [keyDel, keyBackspace, keyAltLeft, keyAltRight, keyLeft, keyRight,
        keyHome, keyEnd, keyUp, keyDown, keyEnter, keyDeleteWord, keyDeleteLine,
        keyCtrlD, keyCtrlU, keyClearScreen, keyCtrlC]
      split_ifs
      · simpa using hline
      · exact le_trans (Terminal.erase_length_le _ _) (by simpa using hline)
    by_cases h2 : key = keyBackspace
    · subst h2
      simp only [Terminal.handleKey]
      rw [if_neg (by simp [hpaste])]
      norm_num [keyDel, keyBackspace, keyAltLeft, keyAltRight, keyLeft, keyRight,
        keyHome, keyEnd, keyUp, keyDown, keyEnter, keyDeleteWord, keyDeleteLine,
        keyCtrlD, keyCtrlU, keyClearScreen, keyCtrlC]
      split_ifs
      · simpa using hline
      · exact le_trans (Terminal.erase_length_le _ _) (by simpa using hline)
    by_cases h3 : key = keyAltLeft
    · subst h3
      simp only [Terminal.handleKey]
      rw [if_neg (by simp [hpaste])]
      norm_num [keyDel, keyBackspace, keyAltLeft, keyAltRight, keyLeft, keyRight,
        keyHome, keyEnd, keyUp, keyDown, keyEnter, keyDeleteWord, keyDeleteLine,
        keyCtrlD, keyCtrlU, keyClearScreen, keyCtrlC]
      simpa using hline
    by_cases h4 : key = keyAltRight
    · subst h4
      simp only [Terminal.handleKey]
      rw [if_neg (by simp [hpaste])]
      norm_num [keyDel, keyBackspace, keyAltLeft, keyAltRight, keyLeft, keyRight,
        keyHome, keyEnd, keyUp, keyDown, keyEnter, keyDeleteWord, keyDeleteLine,
        keyCtrlD, keyCtrlU, keyClearScreen, keyCtrlC]
      simpa using hline
    by_cases h5 : key = keyLeft
    · subst h5
      simp only [Terminal.handleKey]
      rw [if_neg (by simp [hpaste])]
      norm_num [keyDel, keyBackspace, keyAltLeft, keyAltRight, keyLeft, keyRight,
        keyHome, keyEnd, keyUp, keyDown, keyEnter, keyDeleteWord, keyDeleteLine,
        keyCtrlD, keyCtrlU, keyClearScreen, keyCtrlC]
      split_ifs <;> simpa using hline
    by_cases h6 : key = keyRight
    · subst h6
      simp only [Terminal.handleKey]
      rw [if_neg (by simp [hpaste])]
      norm_num [keyDel, keyBackspace, keyAltLeft, keyAltRight, keyLeft, keyRight,
        keyHome, keyEnd, keyUp, keyDown, keyEnter, keyDeleteWord, keyDeleteLine,
        keyCtrlD, keyCtrlU, keyClearScreen, keyCtrlC]
      split_ifs <;> simpa using hline
    by_cases h7 : key = keyHome
    · subst h7
      simp only [Terminal.handleKey]
      rw [if_neg (by simp [hpaste])]
      norm_num [keyDel, keyBackspace, keyAltLeft, keyAltRight, keyLeft, keyRight,
        keyHome, keyEnd, keyUp, keyDown, keyEnter, keyDeleteWord, keyDeleteLine,
        keyCtrlD, keyCtrlU, keyClearScreen, keyCtrlC]
      split_ifs <;> simpa using hline
    by_cases h8 : key = keyEnd
    · subst h8
      simp only [Terminal.handleKey]
      rw [if_neg (by simp [hpaste])]
      norm_num [keyDel, keyBackspace, keyAltLeft, keyAltRight, keyLeft, keyRight,
        keyHome, keyEnd, keyUp, keyDown, keyEnter, keyDeleteWord, keyDeleteLine,
        keyCtrlD, keyCtrlU, keyClearScreen, keyCtrlC]
      split_ifs <;> simpa using hline
    by_cases h9 : key = keyUp
    · subst h9
      simp only [Terminal.handleKey]
      rw [if_neg (by simp [hpaste])]
      norm_num [keyDel, keyBackspace, keyAltLeft, keyAltRight, keyLeft, keyRight,
        keyHome, keyEnd, keyUp, keyDown, keyEnter, keyDeleteWord, keyDeleteLine,
        keyCtrlD, keyCtrlU, keyClearScreen, keyCtrlC]
      split_ifs
      · simpa using hline
      · simp only [Terminal.setLine_line, Terminal.resetAutoComplete_history,
          Terminal.resetAutoComplete_historyIndex]
        exact hhist _
      · simp only [Terminal.setLine_line, Terminal.resetAutoComplete_history,
          Terminal.resetAutoComplete_historyIndex]
        exact hhist _
    by_cases h10 : key = keyDown
    · subst h10
      simp only [Terminal.handleKey]
      rw [if_neg (by simp [hpaste])]
      norm_num [keyDel, keyBackspace, keyAltLeft, keyAltRight, keyLeft, keyRight,
        keyHome, keyEnd, keyUp, keyDown, keyEnter, keyDeleteWord, keyDeleteLine,
        keyCtrlD, keyCtrlU, keyClearScreen, keyCtrlC]
      split_ifs <;>
        first
          | simpa using hline
          | (simp only [Terminal.setLine_line, Terminal.resetAutoComplete_history,
              Terminal.resetAutoComplete_historyIndex,
              Terminal.resetAutoComplete_historyPending]
             first
               | exact hhist _
               | exact hpend)
    by_cases h11 : key = keyEnter
    · subst h11
      simp only [Terminal.handleKey]
      rw [if_neg (by simp [hpaste])]
      norm_num [keyDel, keyBackspace, keyAltLeft, keyAltRight, keyLeft, keyRight,
        keyHome, keyEnd, keyUp, keyDown, keyEnter, keyDeleteWord, keyDeleteLine,
        keyCtrlD, keyCtrlU, keyClearScreen, keyCtrlC]
    by_cases h12 : key = keyDeleteWord
    · subst h12
      simp only [Terminal.handleKey]
      rw [if_neg (by simp [hpaste])]
      norm_num [keyDel, keyBackspace, keyAltLeft, keyAltRight, keyLeft, keyRight,
        keyHome, keyEnd, keyUp, keyDown, keyEnter, keyDeleteWord, keyDeleteLine,
        keyCtrlD, keyCtrlU, keyClearScreen, keyCtrlC]
      exact le_trans (Terminal.erase_length_le _ _) (by simpa using hline)
    by_cases h13 : key = keyDeleteLine
    · subst h13
      simp only [Terminal.handleKey]
      rw [if_neg (by simp [hpaste])]
      norm_num [keyDel, keyBackspace, keyAltLeft, keyAltRight, keyLeft, keyRight,
        keyHome, keyEnd, keyUp, keyDown, keyEnter, keyDeleteWord, keyDeleteLine,
        keyCtrlD, keyCtrlU, keyClearScreen, keyCtrlC]
      simp only [Terminal.moveCursorToPos_line, foldl_queue_advance_line,
        Terminal.resetAutoComplete_line, List.length_take, maxLineLength] at *
      omega
    by_cases h14 : key = keyCtrlD
    · subst h14
      simp only [Terminal.handleKey]
      rw [if_neg (by simp [hpaste])]
      norm_num [keyDel, keyBackspace, keyAltLeft, keyAltRight, keyLeft, keyRight,
        keyHome, keyEnd, keyUp, keyDown, keyEnter, keyDeleteWord, keyDeleteLine,
        keyCtrlD, keyCtrlU, keyClearScreen, keyCtrlC]
      split_ifs
      · exact le_trans (Terminal.erase_length_le _ _) (by simpa using hline)
      · simpa using hline
    by_cases h15 : key = keyCtrlU
    · subst h15
      simp only [Terminal.handleKey]
      rw [if_neg (by simp [hpaste])]
      norm_num [keyDel, keyBackspace, keyAltLeft, keyAltRight, keyLeft, keyRight,
        keyHome, keyEnd, keyUp, keyDown, keyEnter, keyDeleteWord, keyDeleteLine,
        keyCtrlD, keyCtrlU, keyClearScreen, keyCtrlC]
      exact le_trans (Terminal.erase_length_le _ _) (by simpa using hline)
    by_cases h16 : key = keyClearScreen
    · subst h16
      simp only [Terminal.handleKey]
      rw [if_neg (by simp [hpaste])]
      norm_num [keyDel, keyBackspace, keyAltLeft, keyAltRight, keyLeft, keyRight,
        keyHome, keyEnd, keyUp, keyDown, keyEnter, keyDeleteWord, keyDeleteLine,
        keyCtrlD, keyCtrlU, keyClearScreen, keyCtrlC]
      simpa using hline
    by_cases h17 : key = keyCtrlC
    · subst h17
      simp only [Terminal.handleKey]
      rw [if_neg (by simp [hpaste])]
      norm_num [keyDel, keyBackspace, keyAltLeft, keyAltRight, keyLeft, keyRight,
        keyHome, keyEnd, keyUp, keyDown, keyEnter, keyDeleteWord, keyDeleteLine,
        keyCtrlD, keyCtrlU, keyClearScreen, keyCtrlC]
    · rw [Terminal.handleKey]
      rw [if_neg (by simp [hpaste])]
      rw [if_neg (show ¬(key = keyBackspace ∨ key = keyAltLeft ∨ key = keyAltRight ∨
          key = keyLeft ∨ key = keyRight ∨ key = keyHome ∨ key = keyEnd ∨
          key = keyDel ∨ key = keyUp ∨ key = keyDown ∨ key = keyEnter ∨
          key = keyDeleteWord ∨ key = keyDeleteLine ∨ key = keyCtrlD ∨
          key = keyCtrlU ∨ key = keyClearScreen) by tauto)]
      rw [if_neg h1, if_neg h2, if_neg h3, if_neg h4, if_neg h5, if_neg h6,
        if_neg h7, if_neg h8, if_neg h9, if_neg h10, if_neg h11, if_neg h12,
        if_neg h13, if_neg h14, if_neg h15, if_neg h16, if_neg h17]
      exact Terminal.handleKeyDefault_length _ _ hline
  · intro hp hb hlen
    rw [Terminal.handleKey_none_printable t key hpaste hp hb]
    rw [Terminal.handleKeyDefault]
    rw [if_neg (by simp [hp])]
    rw [if_pos hlen]

/-- A basic terminal as built by `NewTerminal`: width 80, height 24, echo
on, `historyIndex = -1`, empty line and buffers. -/
def baseTerminal : Terminal :=
  { prompt := gs "> ", line := [], pos := 0, echo := true, pasteActive := false,
    cursorX := 0, cursorY := 0, maxLine := 0, termWidth := 80, termHeight := 24,
    outBuf := [], history := stRingBuffer.init, historyIndex := -1,
    historyPending := [], autoCompleteIndex := 0, autoCompletePos := 0,
    autoCompletePendng := [], autoCompleting := false, functions := [],
    functionsAutoComplete := [], autoCompleteValues := [] }

/-- A terminal in bracketed-paste mode whose line already holds 4096 runes
(echo off, as during `ReadPassword`; the paste path does not consult echo
before inserting). -/
def c3PasteTerm : Terminal :=
  { baseTerminal with pasteActive := true, echo := false, line := List.replicate 4096 97, pos := 4096 }

/-- C3 counterexample: while bracketed paste is active, `handleKey` inserts
a key into a line that already holds 4096 runes — the paste branch calls
`addKeyToLine` without the `maxLineLength` check — so the line grows to
4097 code points, refuting the claimed invariant. -/
theorem C3_paste_overflow_counterexample :
    (Terminal.handleKey none c3PasteTerm 98).1.line.length = 4097 ∧
    maxLineLength < 4097 := by
  constructor
  · rw [Terminal.handleKey]
    rw [if_pos (by constructor <;> decide)]
    show (c3PasteTerm.resetAutoComplete.addKeyToLine 98).line.length = 4097
    rw [Terminal.addKeyToLine_length]
    rw [Terminal.resetAutoComplete_line]
    show (List.replicate 4096 97).length + 1 = 4097
    rw [List.length_replicate]
  · decide

def c3FullTerm : Terminal :=
  { baseTerminal with line := List.replicate 4096 97, pos := 4096 }

/-- Witness for the amended C3: outside paste, the printable key `b` on a
full 4096-rune line is discarded. -/
theorem C3_line_bound_outside_paste_witness :
    (Terminal.handleKey none c3FullTerm (98 : Nat)).1.line = c3FullTerm.line := by
  have hline : c3FullTerm.line.length ≤ maxLineLength := by
    rw [show c3FullTerm.line = List.replicate 4096 97 from rfl, List.length_replicate]
    decide
  have hhist : ∀ n : Int,
      (c3FullTerm.history.NthPreviousEntry n).1.length ≤ maxLineLength := by
    intro n
    rw [show c3FullTerm.history = stRingBuffer.init from rfl]
    rw [stRingBuffer.NthPreviousEntry]
    split
    · decide
    · rw [show stRingBuffer.init.entries = ([] : List GoStr) from rfl]
      simp [List.getD]
  have hpend : c3FullTerm.historyPending.length ≤ maxLineLength := by decide
  have hp : isPrintable 98 = true := by decide
  have hb : (98 : Nat) ≠ keyBackspace := by decide
  have hlen : c3FullTerm.line.length = maxLineLength := by
    rw [show c3FullTerm.line = List.replicate 4096 97 from rfl, List.length_replicate]
    decide
  exact (C3_line_bound_outside_paste c3FullTerm 98 rfl hline hhist hpend).2 hp hb hlen

/- ### SetSize (terminal source, lines 1221-1293) -/

/-- `clearAndRepaintLinePlusNPrevious`: move to column zero of the top line,
clear this and the `numPrevLines` previous (screen) lines, then repaint the
prompt, the current line and the cursor.  The Go `for t.cursorY <
numPrevLines` loop starts from `cursorY = 0` and runs exactly
`numPrevLines` iterations. -/
def Terminal.clearAndRepaintLinePlusNPrevious (t : Terminal) (numPrevLines : Nat) :
    Terminal :=
  let t1 := t.move t.cursorY 0 t.cursorX 0
  let t2 := { t1 with cursorX := 0, cursorY := 0 }
  let t3 := t2.clearLineToRight
  let t4 := (List.range numPrevLines).foldl (fun acc _ =>
    ({ acc.move 0 1 0 0 with cursorY := acc.cursorY + 1 }).clearLineToRight) t3
  let t5 := t4.move t4.cursorY 0 0 0
  let t6 := { t5 with cursorX := 0, cursorY := 0 }
  let t7 := t6.queue t6.prompt
  let t8 := t7.advanceCursor (visualLength t7.prompt)
  let t9 := t8.writeLine t8.line
  t9.moveCursorToPos t9.pos

/-- `SetSize`: clamp a zero width to 1, store the new dimensions, and —
unless the width is unchanged, or the line is empty with the cursor at the
origin — repaint: on shrink with `cursorX` clamped below the new width and
`cursorY` doubled over `maxLine * 2` previous lines, on grow over `maxLine`
previous lines.  Returns the new state and the bytes written to the
channel (`outBuf` is flushed only in the repaint cases). -/
def Terminal.SetSize (t : Terminal) (width height : Nat) : Terminal × GoStr :=
  let width := if width = 0 then 1 else width
  let oldWidth := t.termWidth
  let t1 := { t with termWidth := width, termHeight := height }
  if width = oldWidth then (t1, [])
  else if t1.line.length = 0 ∧ t1.cursorX = 0 ∧ t1.cursorY = 0 then (t1, [])
  else if width < oldWidth then
    let t2 := if width ≤ t1.cursorX then { t1 with cursorX := width - 1 } else t1
    let t3 := { t2 with cursorY := t2.cursorY * 2 }
    let t4 := t3.clearAndRepaintLinePlusNPrevious (t3.maxLine * 2)
    ({ t4 with outBuf := [] }, t4.outBuf)
  else
    let t4 := t1.clearAndRepaintLinePlusNPrevious t1.maxLine
    ({ t4 with outBuf := [] }, t4.outBuf)

/-- C7 counterexample: `SetSize` with the width unchanged still updates the
stored terminal height — calling `SetSize(80, 25)` on a fresh 80×24
terminal changes the state — refuting the claim that editor state is
unchanged when the new width equals the old width. -/
theorem C7_setsize_counterexample :
    (Terminal.SetSize baseTerminal 80 25).1.termHeight = 25 ∧
    baseTerminal.termHeight = 24 ∧
    (Terminal.SetSize baseTerminal 80 25).2 = [] := by
  refine ⟨rfl, rfl, rfl⟩

/-- C7 amended: `SetSize(w, h)` clamps width 0 to 1; when the (clamped)
width equals the old width, or when the line is empty with the cursor at
the origin, it only stores the new dimensions and produces no output; on
shrink it clamps `cursorX` below the new width, doubles `cursorY`, and
clears and repaints `maxLine * 2` previous lines plus the current one,
flushing the output buffer; on grow it clears and repaints `maxLine`
previous lines plus the current one. -/
theorem C7_setsize_spec (t : Terminal) (w h : Nat) :
    (Terminal.SetSize t 0 h = Terminal.SetSize t 1 h) ∧
    (w ≠ 0 → w = t.termWidth →
      Terminal.SetSize t w h = ({ t with termWidth := w, termHeight := h }, [])) ∧
    (w ≠ 0 → w ≠ t.termWidth → t.line = [] → t.cursorX = 0 → t.cursorY = 0 →
      Terminal.SetSize t w h = ({ t with termWidth := w, termHeight := h }, [])) ∧
    (w ≠ 0 → w < t.termWidth → ¬(t.line = [] ∧ t.cursorX = 0 ∧ t.cursorY = 0) →
      Terminal.SetSize t w h =
        (let t1 : Terminal := { t with termWidth := w, termHeight := h }
         let t2 : Terminal := if w ≤ t1.cursorX then { t1 with cursorX := w - 1 } else t1
         let t3 : Terminal := { t2 with cursorY := t2.cursorY * 2 }
         let t4 := t3.clearAndRepaintLinePlusNPrevious (t3.maxLine * 2)
         ({ t4 with outBuf := [] }, t4.outBuf))) ∧
    (w ≠ 0 → t.termWidth < w → ¬(t.line = [] ∧ t.cursorX = 0 ∧ t.cursorY = 0) →
      Terminal.SetSize t w h =
        (let t4 := ({ t with termWidth := w, termHeight := h
                    } : Terminal).clearAndRepaintLinePlusNPrevious t.maxLine
         ({ t4 with outBuf := [] }, t4.outBuf))) := by
  refine ⟨?_, ?_, ?_, ?_, ?_⟩
  · simp [Terminal.SetSize]
  · intro hw0 hweq
    rw [Terminal.SetSize]
    rw [if_neg hw0]
    rw [if_pos hweq]
  · intro hw0 hwneq hl hx hy
    rw [Terminal.SetSize]
    rw [if_neg hw0]
    rw [if_neg hwneq]
    rw [if_pos (by exact ⟨by simp [hl], hx, hy⟩)]
  · intro hw0 hlt hne
    rw [Terminal.SetSize]
    rw [if_neg hw0]
    rw [if_neg (by omega)]
    rw [if_neg (by simpa using fun hl hx hy => hne ⟨by simpa using hl, hx, hy⟩)]
    rw [if_pos hlt]
  · intro hw0 hgt hne
    rw [Terminal.SetSize]
    rw [if_neg hw0]
    rw [if_neg (by omega)]
    rw [if_neg (by simpa using fun hl hx hy => hne ⟨by simpa using hl, hx, hy⟩)]
    rw [if_neg (by omega)]

/-- Witness for the amended C7: an equal-width resize on a fresh terminal
stores only the new dimensions and writes nothing. -/
theorem C7_setsize_spec_witness :
    Terminal.SetSize baseTerminal 80 25 =
      ({ baseTerminal with termWidth := 80, termHeight := 25 }, []) :=
  (C7_setsize_spec baseTerminal 80 25).2.1 (by decide) rfl
